import Mathlib

/-!
# The governance anti-spam ante decorator (`app/decorators/gov_filter.go`)

A shallow embedding of `GovPreventSpamDecorator` and of the cosmos-sdk primitives it
calls (`sdk.Dec.MulInt`, `sdk.Dec.RoundInt`, `sdk.NewCoin`, `sdk.Coins.Add`,
`sdk.Coins.IsAllLT`), followed by the properties proved about them.

Conventions of the embedding:

* a Go `error` result is an `Option Error` (`none` is `nil`);
* a Go panic is the `Except.error` side of `Except Panic _`;
* `sdk.Int` is `Int`; the 256-bit range checks of the SDK are kept as explicit panics;
* `sdk.Coins` is `List Coin`, in slice order;
* Go compares strings bytewise, which on UTF-8 text is the lexicographic order of the
  code points: `a.data < b.data`;
* the denomination validator (`sdk.ValidateDenom`, a regular expression that an
  application may replace with `sdk.SetCoinDenomRegex`) is the parameter `reDnm`;
* the SDK functions follow cosmos-sdk v0.45, the line whose `x/gov/types` package
  holds `MsgSubmitProposal` and whose keeper has `GetDepositParams`.
-/

set_option exponentiation.threshold 512

namespace Bcna

/-! ## Data model -/

/-- A coin, `sdk.Coin`: a denomination and an amount. -/
structure Coin where
  Denom : String
  Amount : Int
deriving DecidableEq, Repr

/-- A coin slice, `sdk.Coins`. -/
abbrev Coins := List Coin

/-- The panics the SDK primitives used by the decorator can raise. -/
inductive Panic where
  | invalidDenom (denom : String)
  | negativeCoinAmount (amount : Int)
  | intOverflow
  | outOfBound
  | invalidCoinArithmetic (denomA denomB : String)
  | other (reason : String)
deriving DecidableEq, Repr

/-- An error value: a registered sentinel, or `sdkerrors.Wrapf parent format args`
with the format arguments kept unrendered. -/
inductive Error where
  | registered (codespace : String) (code : Nat) (description : String)
  | wrapf (parent : Error) (format : String) (args : List Coins)
deriving DecidableEq, Repr

/-- The sentinel `sdkerrors.ErrUnauthorized`. -/
def ErrUnauthorized : Error := .registered "sdk" 4 "unauthorized"

/-- The sentinel `sdkerrors.ErrInsufficientFunds`. -/
def ErrInsufficientFunds : Error := .registered "sdk" 5 "insufficient funds"

/-- An encoded message, `codectypes.Any`. -/
structure Any where
  TypeUrl : String
  Value : List Nat
deriving DecidableEq, Repr

/-- A message, `sdk.Msg`, by dynamic type: the two types the decorator switches on, and
`other` for a value of any other type (a bank transfer, a vote, the nil interface). Only
the fields the decorator reads are kept for the first two. -/
inductive Msg where
  | MsgSubmitProposal (InitialDeposit : Coins)
  | MsgExec (Msgs : List Any)
  | other (packed : Any)
deriving DecidableEq, Repr

/-- A transaction, `sdk.Tx`, as far as the decorator reads it. -/
structure Tx where
  Msgs : List Msg
  Memo : String
deriving DecidableEq, Repr

/-- The messages of a transaction, `tx.GetMsgs()`. -/
def Tx.GetMsgs (tx : Tx) : List Msg := tx.Msgs

/-- The governance deposit parameters, `govtypes.DepositParams`. -/
structure DepositParams where
  MinDeposit : Coins
  MaxDepositPeriod : Nat
deriving DecidableEq, Repr

/-- The execution context, `sdk.Context`, as far as the decorator reads it. -/
structure Context where
  checkTx : Bool
  blockHeight : Int
  govDepositParams : DepositParams
deriving DecidableEq, Repr

/-- The mode flag `ctx.IsCheckTx()`. -/
def Context.IsCheckTx (ctx : Context) : Bool := ctx.checkTx

/-- The governance keeper, `govkeeper.Keeper`, through the one accessor used. -/
structure Keeper where
  GetDepositParams : Context → DepositParams

/-- The codec, `codec.BinaryCodec`, through the one method used: `UnpackAny` either
fails or yields the decoded message. -/
structure BinaryCodec where
  UnpackAny : Any → Except Error Msg

/-- The decorator, `GovPreventSpamDecorator`. -/
structure GovPreventSpamDecorator where
  govKeeper : Keeper
  cdc : BinaryCodec

/-- The constructor `NewGovPreventSpamDecorator`. -/
def NewGovPreventSpamDecorator (cdc : BinaryCodec) (govKeeper : Keeper) :
    GovPreventSpamDecorator :=
  { govKeeper := govKeeper, cdc := cdc }

/-- The next stage of the ante chain, `sdk.AnteHandler`. -/
abbrev AnteHandler := Context → Tx → Bool → Except Panic (Context × Option Error)

/-! ## Decimal arithmetic (`sdk.Dec`) -/

/-- A fixed-point decimal, `sdk.Dec`: the integer `i` stands for `i / 10^18`. -/
structure Dec where
  i : Int
deriving DecidableEq, Repr

/-- The number of decimal places, `sdk.Precision`. -/
def Precision : Nat := 18

/-- The bit limit of `sdk.Int`, `maxBitLen`. -/
def maxBitLen : Nat := 256

/-- The bit limit of `sdk.Dec`, `maxDecBitLen = maxBitLen + DecimalPrecisionBits - 1`. -/
def maxDecBitLen : Nat := maxBitLen + 59

/-- The scale `10^18`, `precisionReuse`. -/
def precisionReuse : Int := 10 ^ Precision

/-- Half the scale, `fivePrecision`. -/
def fivePrecision : Int := precisionReuse / 2

/-- The test `x.BitLen() > n` of `math/big`: the magnitude of `x` needs more than `n`
bits. -/
def bitLenExceeds (x : Int) (n : Nat) : Bool := decide (2 ^ n ≤ x.natAbs)

/-- The constructor `sdk.NewDecWithPrec i prec`, for `prec ≤ 18`. -/
def NewDecWithPrec (i : Int) (prec : Nat) : Dec := ⟨i * 10 ^ (Precision - prec)⟩

/-- The rate `MiniumInitialDepositRate = sdk.NewDecWithPrec(20, 2)`, that is 0.20. -/
def MiniumInitialDepositRate : Dec := NewDecWithPrec 20 2

/-- The product `d.MulInt(i)`, panicking when it leaves the decimal range. -/
def Dec.MulInt (d : Dec) (i : Int) : Except Panic Dec :=
  let mul := d.i * i
  if bitLenExceeds mul maxDecBitLen then .error .intOverflow else .ok ⟨mul⟩

/-- The body of `chopPrecisionAndRound` for a non-negative argument: truncated
quotient and remainder by `10^18`, then round half to even. -/
def chopPrecisionAndRoundNonNeg (d : Int) : Int :=
  let quo := d.tdiv precisionReuse
  let rem := d.tmod precisionReuse
  if rem = 0 then quo
  else if rem < fivePrecision then quo
  else if rem > fivePrecision then quo + 1
  else if quo % 2 = 0 then quo
  else quo + 1

/-- The rounding `chopPrecisionAndRound`: a negative argument is negated, rounded and
negated back. -/
def chopPrecisionAndRound (d : Int) : Int :=
  if d < 0 then -(chopPrecisionAndRoundNonNeg (-d)) else chopPrecisionAndRoundNonNeg d

/-- The rounding `d.RoundInt()`, through `NewIntFromBigInt` and its range check. -/
def Dec.RoundInt (d : Dec) : Except Panic Int :=
  let r := chopPrecisionAndRound d.i
  if bitLenExceeds r maxBitLen then .error .outOfBound else .ok r

/-! ## Coins (`sdk.Coin`, `sdk.Coins`) -/

/-- The guard `mustValidateDenom`. -/
def mustValidateDenom (reDnm : String → Bool) (denom : String) : Except Panic Unit :=
  if reDnm denom then .ok () else .error (.invalidDenom denom)

/-- The constructor `sdk.NewCoin`, which panics on an invalid denomination or a
negative amount. -/
def NewCoin (reDnm : String → Bool) (denom : String) (amount : Int) : Except Panic Coin :=
  if !reDnm denom then .error (.invalidDenom denom)
  else if amount < 0 then .error (.negativeCoinAmount amount)
  else .ok ⟨denom, amount⟩

/-- The test `coin.IsZero()`. -/
def Coin.IsZero (coin : Coin) : Bool := decide (coin.Amount = 0)

/-- The sum `coin.Add(coinB)` of two coins of one denomination, with the range check
of `sdk.Int.Add`. -/
def Coin.Add (coin coinB : Coin) : Except Panic Coin :=
  if coin.Denom ≠ coinB.Denom then .error (.invalidCoinArithmetic coin.Denom coinB.Denom)
  else
    let res := coin.Amount + coinB.Amount
    if bitLenExceeds res maxBitLen then .error .intOverflow else .ok ⟨coin.Denom, res⟩

/-- The filter `removeZeroCoins`. -/
def removeZeroCoins (coins : Coins) : Coins := coins.filter (fun c => !c.IsZero)

/-- The merge loop of `safeAdd` while the head `coinA` of the receiver is fixed; the
function `recA` continues with the rest of the receiver. -/
def safeAdd.withHead (coinA : Coin) (restA : Coins) (recA : Coins → Except Panic Coins) :
    Coins → Except Panic Coins
  | [] => .ok (removeZeroCoins (coinA :: restA))
  | coinB :: restB =>
    if coinA.Denom.data < coinB.Denom.data then
      (recA (coinB :: restB)).map (fun sum => if coinA.IsZero then sum else coinA :: sum)
    else if coinA.Denom = coinB.Denom then
      match coinA.Add coinB with
      | .error p => .error p
      | .ok res => (recA restB).map (fun sum => if res.IsZero then sum else res :: sum)
    else
      (safeAdd.withHead coinA restA recA restB).map
        (fun sum => if coinB.IsZero then sum else coinB :: sum)

/-- The merge `coins.safeAdd(coinsB)` behind `coins.Add(coinsB...)`: the two slices are
walked in denomination order, equal denominations are summed, zero coins dropped. SDK
lines that first panic on an unsorted slice agree with it wherever the decorator calls it:
the receiver is nil or a previous result, the argument a single coin. -/
def safeAdd : Coins → Coins → Except Panic Coins
  | [], coinsB => .ok (removeZeroCoins coinsB)
  | coinA :: restA, coinsB => safeAdd.withHead coinA restA (safeAdd restA) coinsB

/-- The variadic `coins.Add(coinsB...)`. -/
def Coins.Add (coins : Coins) (coinsB : List Coin) : Except Panic Coins := safeAdd coins coinsB

/-- The binary search of `AmountOf` with a recursion budget; `fuel = len(coins)` is
always enough, since every recursive call is on a strictly shorter slice. -/
def amountOfSearch : Nat → Coins → String → Int
  | 0, _, _ => 0
  | fuel + 1, coins, denom =>
    match coins with
    | [] => 0
    | [coin] => if coin.Denom = denom then coin.Amount else 0
    | _ =>
      let midIdx := coins.length / 2
      match coins.get? midIdx with
      | none => 0
      | some coin =>
        if denom.data < coin.Denom.data then amountOfSearch fuel (coins.take midIdx) denom
        else if denom = coin.Denom then coin.Amount
        else amountOfSearch fuel (coins.drop (midIdx + 1)) denom

/-- The lookup `coins.AmountOf(denom)`: the denomination is validated, then searched
by bisection. -/
def Coins.AmountOf (reDnm : String → Bool) (coins : Coins) (denom : String) :
    Except Panic Int :=
  match mustValidateDenom reDnm denom with
  | .error p => .error p
  | .ok _ => .ok (amountOfSearch coins.length coins denom)

/-- The loop of `DenomsSubsetOf`: every coin has a non-zero amount in `coinsB`. -/
def Coins.DenomsSubsetOf.loop (reDnm : String → Bool) (coinsB : Coins) :
    Coins → Except Panic Bool
  | [] => .ok true
  | coin :: rest =>
    match Coins.AmountOf reDnm coinsB coin.Denom with
    | .error p => .error p
    | .ok amount =>
      if amount = 0 then .ok false else Coins.DenomsSubsetOf.loop reDnm coinsB rest

/-- The test `coins.DenomsSubsetOf(coinsB)`. -/
def Coins.DenomsSubsetOf (reDnm : String → Bool) (coins coinsB : Coins) : Except Panic Bool :=
  if coins.length > coinsB.length then .ok false
  else Coins.DenomsSubsetOf.loop reDnm coinsB coins

/-- The loop of `IsAllGT`: every coin of `coinsB` has a strictly greater amount in
`coins`. -/
def Coins.IsAllGT.loop (reDnm : String → Bool) (coins : Coins) : Coins → Except Panic Bool
  | [] => .ok true
  | coinB :: rest =>
    match Coins.AmountOf reDnm coins coinB.Denom with
    | .error p => .error p
    | .ok amountA =>
      if ¬ (amountA > coinB.Amount) then .ok false else Coins.IsAllGT.loop reDnm coins rest

/-- The test `coins.IsAllGT(coinsB)`. -/
def Coins.IsAllGT (reDnm : String → Bool) (coins coinsB : Coins) : Except Panic Bool :=
  if coins.length = 0 then .ok false
  else if coinsB.length = 0 then .ok true
  else
    match Coins.DenomsSubsetOf reDnm coinsB coins with
    | .error p => .error p
    | .ok sub =>
      if !sub then .ok false else Coins.IsAllGT.loop reDnm coins coinsB

/-- The test `coins.IsAllLT(coinsB)`, which is `coinsB.IsAllGT(coins)`. -/
def Coins.IsAllLT (reDnm : String → Bool) (coins coinsB : Coins) : Except Panic Bool :=
  Coins.IsAllGT reDnm coinsB coins

/-! ## The decorator -/

/-- The loop of `calcMiniumInitialDeposit` from the accumulated result `acc`. -/
def calcMiniumInitialDeposit.loop (reDnm : String → Bool) :
    Coins → Coins → Except Panic Coins
  | acc, [] => .ok acc
  | acc, coin :: rest =>
    match MiniumInitialDepositRate.MulInt coin.Amount with
    | .error p => .error p
    | .ok product =>
      match product.RoundInt with
      | .error p => .error p
      | .ok miniumInitialCoin =>
        match NewCoin reDnm coin.Denom miniumInitialCoin with
        | .error p => .error p
        | .ok newCoin =>
          match Coins.Add acc [newCoin] with
          | .error p => .error p
          | .ok acc' => calcMiniumInitialDeposit.loop reDnm acc' rest

/-- The method `calcMiniumInitialDeposit`: 20% of every coin of the minimum deposit,
rounded, added up into a coin set that starts nil. -/
def calcMiniumInitialDeposit (reDnm : String → Bool) (minDeposit : Coins) :
    Except Panic Coins :=
  calcMiniumInitialDeposit.loop reDnm [] minDeposit

/-- The closure `validMsg` of `checkSpamSubmitProposalMsg`. -/
def checkSpamSubmitProposalMsg.validMsg (reDnm : String → Bool)
    (gpsd : GovPreventSpamDecorator) (ctx : Context) (m : Msg) :
    Except Panic (Option Error) :=
  match m with
  | .MsgSubmitProposal initialDeposit =>
    let depositParams := gpsd.govKeeper.GetDepositParams ctx
    match calcMiniumInitialDeposit reDnm depositParams.MinDeposit with
    | .error p => .error p
    | .ok miniumInitialDeposit =>
      match Coins.IsAllLT reDnm initialDeposit miniumInitialDeposit with
      | .error p => .error p
      | .ok true =>
        .ok (some (.wrapf ErrInsufficientFunds "not enough initial deposit. required: %v"
          [miniumInitialDeposit]))
      | .ok false => .ok none
  | _ => .ok none

/-- The loop of the closure `validAuthz` over the encoded inner messages. -/
def checkSpamSubmitProposalMsg.validAuthz.loop (reDnm : String → Bool)
    (gpsd : GovPreventSpamDecorator) (ctx : Context) :
    List Any → Except Panic (Option Error)
  | [] => .ok none
  | v :: rest =>
    match gpsd.cdc.UnpackAny v with
    | .error _ => .ok (some (.wrapf ErrUnauthorized "cannot unmarshal authz exec msgs" []))
    | .ok innerMsg =>
      match checkSpamSubmitProposalMsg.validMsg reDnm gpsd ctx innerMsg with
      | .error p => .error p
      | .ok (some err) => .ok (some err)
      | .ok none => checkSpamSubmitProposalMsg.validAuthz.loop reDnm gpsd ctx rest

/-- The closure `validAuthz` of `checkSpamSubmitProposalMsg`, on the inner messages
`execMsg.Msgs` of an envelope. -/
def checkSpamSubmitProposalMsg.validAuthz (reDnm : String → Bool)
    (gpsd : GovPreventSpamDecorator) (ctx : Context) (execMsgs : List Any) :
    Except Panic (Option Error) :=
  checkSpamSubmitProposalMsg.validAuthz.loop reDnm gpsd ctx execMsgs

/-- The method `checkSpamSubmitProposalMsg`: the messages in order, an envelope
through `validAuthz`, any other message through `validMsg`, stopping at the first
error. -/
def checkSpamSubmitProposalMsg (reDnm : String → Bool) (gpsd : GovPreventSpamDecorator)
    (ctx : Context) : List Msg → Except Panic (Option Error)
  | [] => .ok none
  | m :: rest =>
    match m with
    | .MsgExec execMsgs =>
      match checkSpamSubmitProposalMsg.validAuthz reDnm gpsd ctx execMsgs with
      | .error p => .error p
      | .ok (some err) => .ok (some err)
      | .ok none => checkSpamSubmitProposalMsg reDnm gpsd ctx rest
    | _ =>
      match checkSpamSubmitProposalMsg.validMsg reDnm gpsd ctx m with
      | .error p => .error p
      | .ok (some err) => .ok (some err)
      | .ok none => checkSpamSubmitProposalMsg reDnm gpsd ctx rest

/-- The method `AnteHandle`: outside `CheckTx`, or when simulating, the next handler
runs at once; otherwise the check runs first and its error, if any, is returned with
the context. -/
def GovPreventSpamDecorator.AnteHandle (reDnm : String → Bool)
    (gpsd : GovPreventSpamDecorator) (ctx : Context) (tx : Tx) (simulate : Bool)
    (next : AnteHandler) : Except Panic (Context × Option Error) :=
  if !ctx.IsCheckTx || simulate then next ctx tx simulate
  else
    let msgs := tx.GetMsgs
    match checkSpamSubmitProposalMsg reDnm gpsd ctx msgs with
    | .error p => .error p
    | .ok (some err) => .ok (ctx, some err)
    | .ok none => next ctx tx simulate

/-! ## Derived notions used in the statements -/

/-- The error returned for an insufficient initial deposit, carrying the required
minimum. -/
def insufficientDepositError (miniumInitialDeposit : Coins) : Error :=
  .wrapf ErrInsufficientFunds "not enough initial deposit. required: %v" [miniumInitialDeposit]

/-- The error returned for an envelope with an undecodable inner message. -/
def cannotUnmarshalError : Error :=
  .wrapf ErrUnauthorized "cannot unmarshal authz exec msgs" []

/-- The dynamic type test `m.(*authz.MsgExec)`. -/
def Msg.isMsgExec : Msg → Bool
  | .MsgExec _ => true
  | _ => false

/-- The dynamic type test `m.(*govtypes.MsgSubmitProposal)`. -/
def Msg.isMsgSubmitProposal : Msg → Bool
  | .MsgSubmitProposal _ => true
  | _ => false

/-- Sequencing of two checks: the second runs only when the first returned no error. -/
def andThen (first : Except Panic (Option Error)) (second : Except Panic (Option Error)) :
    Except Panic (Option Error) :=
  match first with
  | .ok none => second
  | r => r

/-- One step of the message loop. -/
def checkOne (reDnm : String → Bool) (gpsd : GovPreventSpamDecorator) (ctx : Context)
    (m : Msg) : Except Panic (Option Error) :=
  match m with
  | .MsgExec execMsgs => checkSpamSubmitProposalMsg.validAuthz reDnm gpsd ctx execMsgs
  | _ => checkSpamSubmitProposalMsg.validMsg reDnm gpsd ctx m

/-- One step of the inner loop of an envelope. -/
def authzOne (reDnm : String → Bool) (gpsd : GovPreventSpamDecorator) (ctx : Context)
    (v : Any) : Except Panic (Option Error) :=
  match gpsd.cdc.UnpackAny v with
  | .error _ => .ok (some cannotUnmarshalError)
  | .ok innerMsg => checkSpamSubmitProposalMsg.validMsg reDnm gpsd ctx innerMsg

/-- The amount of the first coin of `coins` with denomination `denom`, zero when there
is none. -/
def amountIn : Coins → String → Int
  | [], _ => 0
  | c :: cs, denom => if c.Denom = denom then c.Amount else amountIn cs denom

/-- The coins are in strictly increasing order of denomination. -/
def SortedByDenom (coins : Coins) : Prop :=
  coins.Pairwise (fun a b => a.Denom.data < b.Denom.data)

/-- The amount `MiniumInitialDepositRate.MulInt(amount).RoundInt()` when neither call
panics. -/
def miniumInitialCoin (amount : Int) : Int :=
  chopPrecisionAndRound (MiniumInitialDepositRate.i * amount)

/-- The coin that `calcMiniumInitialDeposit` adds for a coin of the minimum deposit. -/
def miniumInitialCoinOf (coin : Coin) : Coin := ⟨coin.Denom, miniumInitialCoin coin.Amount⟩

/-- The coin set is well formed, as `sdk.Coins.Validate` demands: valid denominations,
positive amounts within the range of `sdk.Int`, strictly increasing denominations. -/
def Coins.IsValid (reDnm : String → Bool) (coins : Coins) : Prop :=
  (∀ c ∈ coins, reDnm c.Denom = true ∧ 0 < c.Amount ∧ bitLenExceeds c.Amount maxBitLen = false)
    ∧ SortedByDenom coins

/-- The minimum that `calcMiniumInitialDeposit` computes from a well-formed minimum
deposit: the rounded 20% of every coin, zero coins dropped. -/
def computedMinimum (minDeposit : Coins) : Coins :=
  removeZeroCoins (minDeposit.map miniumInitialCoinOf)

/-- The decision of `initialDeposit.IsAllLT(minimum)` when no denomination is invalid
and `minimum` is sorted: `minimum` is non-empty, and `initialDeposit` is empty or has no
more coins than `minimum`, each with a non-zero amount in `minimum` that is strictly
greater than its own. -/
def belowMinimum (initialDeposit minimum : Coins) : Bool :=
  !minimum.isEmpty
    && (initialDeposit.isEmpty
      || (decide (initialDeposit.length ≤ minimum.length)
        && initialDeposit.all (fun c => decide (amountIn minimum c.Denom ≠ 0))
        && initialDeposit.all (fun c => decide (c.Amount < amountIn minimum c.Denom))))

/-- Rounding half away from zero of a non-negative scaled decimal, the other rounding
rule the specification allows: the quotient by `10^18`, plus one when the remainder is
at least one half. -/
def roundHalfAwayFromZeroNonNeg (d : Int) : Int :=
  let quo := d.tdiv precisionReuse
  let rem := d.tmod precisionReuse
  if rem < fivePrecision then quo else quo + 1

/-- Rounding half away from zero of a scaled decimal of either sign. -/
def roundHalfAwayFromZero (d : Int) : Int :=
  if d < 0 then -(roundHalfAwayFromZeroNonNeg (-d)) else roundHalfAwayFromZeroNonNeg d

/-- The test `errors.Is(err, target)`: the error is the target or wraps it. -/
def Error.Is : Error → Error → Bool
  | .wrapf parent format args, target =>
    decide (Error.wrapf parent format args = target) || parent.Is target
  | .registered codespace code description, target =>
    decide (Error.registered codespace code description = target)

/-- The attached deposit fails the comparison of `validMsg`: `calcMiniumInitialDeposit`
returns a minimum and `IsAllLT` against it returns true. -/
def depositFails (reDnm : String → Bool) (gpsd : GovPreventSpamDecorator) (ctx : Context)
    (initialDeposit : Coins) : Prop :=
  ∃ miniumInitialDeposit : Coins,
    calcMiniumInitialDeposit reDnm (gpsd.govKeeper.GetDepositParams ctx).MinDeposit
        = .ok miniumInitialDeposit
      ∧ Coins.IsAllLT reDnm initialDeposit miniumInitialDeposit = .ok true

/-- The message is one that makes the check fail: a proposal submission whose attached
deposit fails the comparison, or an envelope one of whose inner messages fails to decode
or decodes to such a proposal submission. -/
def msgFails (reDnm : String → Bool) (gpsd : GovPreventSpamDecorator) (ctx : Context) :
    Msg → Prop
  | .MsgSubmitProposal initialDeposit => depositFails reDnm gpsd ctx initialDeposit
  | .MsgExec inner =>
    ∃ v ∈ inner,
      (∃ err : Error, gpsd.cdc.UnpackAny v = .error err)
        ∨ ∃ initialDeposit : Coins,
            gpsd.cdc.UnpackAny v = .ok (.MsgSubmitProposal initialDeposit)
              ∧ depositFails reDnm gpsd ctx initialDeposit
  | .other _ => False

/-- A denomination pattern of the SDK, `[a-zA-Z][a-zA-Z0-9/:._-]{2,127}`, matched against
the whole string: the default of the later SDK lines, which admits every denomination the
earlier default admits. The examples use it; the theorems hold for any validator. -/
def DefaultCoinDenomRegex (denom : String) : Bool :=
  match denom.data with
  | [] => false
  | c :: cs =>
    c.isAlpha
      && cs.all (fun x => x.isAlphanum || x = '/' || x = ':' || x = '.' || x = '_' || x = '-')
      && decide (2 ≤ cs.length) && decide (cs.length ≤ 127)

/-- A keeper that reads the deposit parameters held by the context. -/
def storeKeeper : Keeper := ⟨fun ctx => ctx.govDepositParams⟩

/-- A codec for the examples: under the type URL of a proposal submission the payload
lists the amounts of an initial deposit in "stake"; under any other URL an empty payload
fails to decode, the URL of an envelope decodes to an empty envelope, and the rest
decodes to some other message. -/
def sampleCodec : BinaryCodec :=
  ⟨fun v =>
    if v.TypeUrl = "/cosmos.gov.v1beta1.MsgSubmitProposal" then
      .ok (.MsgSubmitProposal (v.Value.map (fun n => ⟨"stake", n⟩)))
    else if v.Value = [] then .error (.registered "sdk" 2 "tx parse error")
    else if v.TypeUrl = "/cosmos.authz.v1beta1.MsgExec" then .ok (.MsgExec [])
    else .ok (.other v)⟩

/-- The sample decorator. -/
def sampleDecorator : GovPreventSpamDecorator :=
  NewGovPreventSpamDecorator sampleCodec storeKeeper

/-- A context in `CheckTx` mode (or not) whose minimum deposit is `minDeposit`. -/
def sampleContext (checkTx : Bool) (minDeposit : Coins) : Context :=
  ⟨checkTx, 1, ⟨minDeposit, 172800⟩⟩

/-- A next handler that accepts everything and records its call in the block height. -/
def acceptNext : AnteHandler :=
  fun ctx _ _ => .ok ({ ctx with blockHeight := ctx.blockHeight + 1 }, none)

/-- An encoded proposal submission with the given "stake" amounts as initial deposit. -/
def packedProposal (amounts : List Nat) : Any :=
  ⟨"/cosmos.gov.v1beta1.MsgSubmitProposal", amounts⟩

/-- An encoded message that the sample codec cannot decode. -/
def packedGarbage : Any := ⟨"/cosmos.bank.v1beta1.MsgSend", []⟩

/-- An encoded coin transfer. -/
def packedSend : Any := ⟨"/cosmos.bank.v1beta1.MsgSend", [7, 1000000]⟩

/-- A context in `CheckTx` mode whose minimum deposit is 50 "atom" and 1000 "stake". -/
def twoDenomContext : Context := sampleContext true [⟨"atom", 50⟩, ⟨"stake", 1000⟩]

/-- A context in `CheckTx` mode whose minimum deposit is 1000 "stake". -/
def stakeContext : Context := sampleContext true [⟨"stake", 1000⟩]

theorem check_nil (reDnm : String → Bool) (gpsd : GovPreventSpamDecorator) (ctx : Context) :
    checkSpamSubmitProposalMsg reDnm gpsd ctx [] = .ok none := rfl

theorem check_cons (reDnm : String → Bool) (gpsd : GovPreventSpamDecorator) (ctx : Context)
    (m : Msg) (rest : List Msg) :
    checkSpamSubmitProposalMsg reDnm gpsd ctx (m :: rest)
      = andThen (checkOne reDnm gpsd ctx m) (checkSpamSubmitProposalMsg reDnm gpsd ctx rest) := by
  cases m <;> simp only [checkSpamSubmitProposalMsg, checkOne, andThen] <;> split <;> simp_all

theorem andThen_ok_none (second : Except Panic (Option Error)) :
    andThen (.ok none) second = second := rfl

theorem andThen_assoc (a b c : Except Panic (Option Error)) :
    andThen (andThen a b) c = andThen a (andThen b c) := by
  rcases a with _ | _ | _ <;> rfl

theorem andThen_right_ok_none (a : Except Panic (Option Error)) :
    andThen a (.ok none) = a := by
  rcases a with _ | _ | _ <;> rfl

theorem check_single (reDnm : String → Bool) (gpsd : GovPreventSpamDecorator) (ctx : Context)
    (m : Msg) :
    checkSpamSubmitProposalMsg reDnm gpsd ctx [m] = checkOne reDnm gpsd ctx m := by
  rw [check_cons, check_nil, andThen_right_ok_none]

theorem check_append (reDnm : String → Bool) (gpsd : GovPreventSpamDecorator) (ctx : Context)
    (a b : List Msg) :
    checkSpamSubmitProposalMsg reDnm gpsd ctx (a ++ b)
      = andThen (checkSpamSubmitProposalMsg reDnm gpsd ctx a)
          (checkSpamSubmitProposalMsg reDnm gpsd ctx b) := by
  induction a with
  | nil => rfl
  | cons m rest ih => rw [List.cons_append, check_cons, check_cons, ih, andThen_assoc]

theorem validAuthz_nil (reDnm : String → Bool) (gpsd : GovPreventSpamDecorator) (ctx : Context) :
    checkSpamSubmitProposalMsg.validAuthz reDnm gpsd ctx [] = .ok none := rfl

theorem validAuthz_cons (reDnm : String → Bool) (gpsd : GovPreventSpamDecorator)
    (ctx : Context) (v : Any) (rest : List Any) :
    checkSpamSubmitProposalMsg.validAuthz reDnm gpsd ctx (v :: rest)
      = andThen (authzOne reDnm gpsd ctx v)
          (checkSpamSubmitProposalMsg.validAuthz reDnm gpsd ctx rest) := by
  simp only [checkSpamSubmitProposalMsg.validAuthz, checkSpamSubmitProposalMsg.validAuthz.loop,
    authzOne, andThen, cannotUnmarshalError]
  split
  · rfl
  · split <;> simp_all

theorem validAuthz_append (reDnm : String → Bool) (gpsd : GovPreventSpamDecorator)
    (ctx : Context) (a b : List Any) :
    checkSpamSubmitProposalMsg.validAuthz reDnm gpsd ctx (a ++ b)
      = andThen (checkSpamSubmitProposalMsg.validAuthz reDnm gpsd ctx a)
          (checkSpamSubmitProposalMsg.validAuthz reDnm gpsd ctx b) := by
  induction a with
  | nil => rfl
  | cons v rest ih => rw [List.cons_append, validAuthz_cons, validAuthz_cons, ih, andThen_assoc]

theorem validMsg_other (reDnm : String → Bool) (gpsd : GovPreventSpamDecorator) (ctx : Context)
    (m : Msg) (h : m.isMsgSubmitProposal = false) :
    checkSpamSubmitProposalMsg.validMsg reDnm gpsd ctx m = .ok none := by
  cases m <;> simp_all [checkSpamSubmitProposalMsg.validMsg, Msg.isMsgSubmitProposal]

theorem check_all_pass (reDnm : String → Bool) (gpsd : GovPreventSpamDecorator) (ctx : Context)
    (msgs : List Msg) (h : ∀ m ∈ msgs, checkSpamSubmitProposalMsg reDnm gpsd ctx [m] = .ok none) :
    checkSpamSubmitProposalMsg reDnm gpsd ctx msgs = .ok none := by
  induction msgs with
  | nil => rfl
  | cons m rest ih =>
    have h1 := h m (List.mem_cons_self _ _)
    rw [check_single] at h1
    rw [check_cons, h1, andThen_ok_none]
    exact ih (fun x hx => h x (List.mem_cons_of_mem _ hx))

theorem anteHandle_of_check (reDnm : String → Bool) (gpsd : GovPreventSpamDecorator)
    (ctx : Context) (tx : Tx) (next : AnteHandler) (hctx : ctx.IsCheckTx = true) :
    gpsd.AnteHandle reDnm ctx tx false next
      = match checkSpamSubmitProposalMsg reDnm gpsd ctx tx.Msgs with
        | .error p => .error p
        | .ok (some err) => .ok (ctx, some err)
        | .ok none => next ctx tx false := by
  simp [GovPreventSpamDecorator.AnteHandle, hctx, Tx.GetMsgs]

theorem checkOne_of_not_exec (reDnm : String → Bool) (gpsd : GovPreventSpamDecorator)
    (ctx : Context) (m : Msg) (h : m.isMsgExec = false) :
    checkOne reDnm gpsd ctx m = checkSpamSubmitProposalMsg.validMsg reDnm gpsd ctx m := by
  cases m <;> simp_all [checkOne, Msg.isMsgExec]

theorem check_exec_eq_of_decoded (reDnm : String → Bool) (gpsd : GovPreventSpamDecorator)
    (ctx : Context) (inner : List Any) (decoded : List Msg)
    (h : List.Forall₂ (fun v m => gpsd.cdc.UnpackAny v = .ok m ∧ m.isMsgExec = false)
      inner decoded) :
    checkSpamSubmitProposalMsg.validAuthz reDnm gpsd ctx inner
      = checkSpamSubmitProposalMsg reDnm gpsd ctx decoded := by
  induction h with
  | nil => rfl
  | cons hv _ ih =>
    rw [validAuthz_cons, check_cons, ih, checkOne_of_not_exec _ _ _ _ hv.2]
    simp only [authzOne, hv.1]

/-! ## Denomination order, lookup, rounding and the computed minimum -/

theorem amountIn_of_absent (coins : Coins) (denom : String)
    (h : ∀ c ∈ coins, c.Denom ≠ denom) : amountIn coins denom = 0 := by
  induction coins with
  | nil => rfl
  | cons c cs ih =>
    simp only [amountIn, h c (List.mem_cons_self _ _), if_false]
    exact ih (fun x hx => h x (List.mem_cons_of_mem _ hx))

theorem amountIn_append_of_left_absent (a b : Coins) (denom : String)
    (h : ∀ c ∈ a, c.Denom ≠ denom) : amountIn (a ++ b) denom = amountIn b denom := by
  induction a with
  | nil => rfl
  | cons c cs ih =>
    simp only [List.cons_append, amountIn, h c (List.mem_cons_self _ _), if_false]
    exact ih (fun x hx => h x (List.mem_cons_of_mem _ hx))

theorem amountIn_append_of_right_absent (a b : Coins) (denom : String)
    (h : ∀ c ∈ b, c.Denom ≠ denom) : amountIn (a ++ b) denom = amountIn a denom := by
  induction a with
  | nil => exact amountIn_of_absent b denom h
  | cons c cs ih =>
    show (if c.Denom = denom then c.Amount else amountIn (cs ++ b) denom)
      = if c.Denom = denom then c.Amount else amountIn cs denom
    rw [ih]

theorem denom_ne_of_lt {a b : String} (h : a.data < b.data) : a ≠ b := by
  intro hab
  subst hab
  exact lt_irrefl _ h

theorem denom_trichotomy (a b : String) : a.data < b.data ∨ a = b ∨ b.data < a.data := by
  rcases lt_trichotomy a.data b.data with h | h | h
  · exact Or.inl h
  · exact Or.inr (Or.inl (String.ext h))
  · exact Or.inr (Or.inr h)

theorem split_at_mid (coins : Coins) (midIdx : Nat) (h : midIdx < coins.length) :
    coins.get? midIdx = some coins[midIdx]
      ∧ coins = coins.take midIdx ++ coins[midIdx] :: coins.drop (midIdx + 1) := by
  refine ⟨?_, ?_⟩
  · rw [List.get?_eq_getElem?]
    exact List.getElem?_eq_getElem h
  · rw [List.getElem_cons_drop, List.take_append_drop]

/-- The recursion budget of the bisection never runs out: any two budgets of at least
the length of the slice give the same result, on every slice, sorted or not. -/
theorem amountOfSearch_fuel (denom : String) :
    ∀ (fuel fuel' : Nat) (coins : Coins), coins.length ≤ fuel → coins.length ≤ fuel' →
      amountOfSearch fuel coins denom = amountOfSearch fuel' coins denom := by
  intro fuel
  induction fuel with
  | zero =>
    intro fuel' coins hlen _
    have : coins = [] := List.length_eq_zero.mp (Nat.le_zero.mp hlen)
    subst this
    cases fuel' <;> rfl
  | succ fuel ih =>
    intro fuel' coins hlen hlen'
    match fuel', coins, hlen, hlen' with
    | 0, [], _, _ => rfl
    | _ + 1, [], _, _ => rfl
    | 0, _ :: _, _, h => simp at h
    | fuel' + 1, [c], _, _ => simp [amountOfSearch]
    | fuel' + 1, a :: b :: rest, hlen, hlen' =>
      have hmid : (a :: b :: rest).length / 2 < (a :: b :: rest).length :=
        Nat.div_lt_self (by simp) (by decide)
      have h1 : ((a :: b :: rest).take ((a :: b :: rest).length / 2)).length ≤ fuel := by
        rw [List.length_take]; omega
      have h1' : ((a :: b :: rest).take ((a :: b :: rest).length / 2)).length ≤ fuel' := by
        rw [List.length_take]; omega
      have h2 : ((a :: b :: rest).drop ((a :: b :: rest).length / 2 + 1)).length ≤ fuel := by
        rw [List.length_drop]; omega
      have h2' : ((a :: b :: rest).drop ((a :: b :: rest).length / 2 + 1)).length ≤ fuel' := by
        rw [List.length_drop]; omega
      simp only [amountOfSearch, ih fuel' _ h1 h1', ih fuel' _ h2 h2']

/-- On a slice sorted by denomination the bisection of `AmountOf` finds what a scan from
the left finds, whenever the budget is at least the length. -/
theorem amountOfSearch_eq_amountIn (denom : String) :
    ∀ (fuel : Nat) (coins : Coins), coins.length ≤ fuel → SortedByDenom coins →
      amountOfSearch fuel coins denom = amountIn coins denom := by
  intro fuel
  induction fuel with
  | zero =>
    intro coins hlen _
    have : coins = [] := List.length_eq_zero.mp (Nat.le_zero.mp hlen)
    subst this
    rfl
  | succ fuel ih =>
    intro coins hlen hs
    match coins, hlen, hs with
    | [], _, _ => rfl
    | [c], _, _ => simp [amountOfSearch, amountIn]
    | a :: b :: rest, hlen, hs =>
      have hmid : (a :: b :: rest).length / 2 < (a :: b :: rest).length :=
        Nat.div_lt_self (by simp) (by decide)
      obtain ⟨hget, hsplit⟩ := split_at_mid (a :: b :: rest) _ hmid
      simp only [amountOfSearch, hget]
      generalize hc : (a :: b :: rest)[(a :: b :: rest).length / 2] = coin at hsplit
      have hs' := hs
      unfold SortedByDenom at hs'
      rw [hsplit, List.pairwise_append, List.pairwise_cons] at hs'
      obtain ⟨hleft, ⟨hgt, hright⟩, hlt⟩ := hs'
      have hmid' : (a :: b :: rest).length / 2 ≤ fuel := by
        have := Nat.lt_of_lt_of_le hmid hlen
        omega
      rcases denom_trichotomy denom coin.Denom with h | h | h
      · rw [if_pos h, ih _ (by rw [List.length_take]; omega) hleft]
        conv_rhs => rw [hsplit]
        rw [amountIn_append_of_right_absent]
        intro c hcm
        rcases List.mem_cons.mp hcm with rfl | hcm
        · exact (denom_ne_of_lt h).symm
        · exact (denom_ne_of_lt (lt_trans h (hgt c hcm))).symm
      · rw [if_neg (by rw [h]; exact lt_irrefl _), if_pos h]
        conv_rhs => rw [hsplit]
        rw [amountIn_append_of_left_absent]
        · simp [amountIn, h]
        · intro c hcm
          rw [h]
          exact denom_ne_of_lt (hlt c hcm coin (List.mem_cons_self _ _))
      · rw [if_neg (lt_asymm h), if_neg (denom_ne_of_lt h).symm,
          ih _ (by rw [List.length_drop]; omega) hright]
        conv_rhs => rw [hsplit]
        rw [amountIn_append_of_left_absent]
        · simp [amountIn, denom_ne_of_lt h]
        · intro c hcm
          exact denom_ne_of_lt (lt_trans (hlt c hcm coin (List.mem_cons_self _ _)) h)

theorem rate_value : MiniumInitialDepositRate.i = 200000000000000000 := by decide

theorem chopPrecisionAndRound_rate (a : Int) (h : 0 ≤ a) :
    miniumInitialCoin a = (a + 2) / 5 := by
  have hnn : ¬ (200000000000000000 * a < 0) := by omega
  have hd : (200000000000000000 * a).tdiv 1000000000000000000
      = (200000000000000000 * a) / 1000000000000000000 :=
    Int.tdiv_eq_ediv (by omega) (by decide)
  have hm : (200000000000000000 * a).tmod 1000000000000000000
      = (200000000000000000 * a) % 1000000000000000000 :=
    Int.tmod_eq_emod (by omega) (by decide)
  have hp : precisionReuse = 1000000000000000000 := by decide
  have hf : fivePrecision = 500000000000000000 := by decide
  simp only [miniumInitialCoin, rate_value, chopPrecisionAndRound, if_neg hnn,
    chopPrecisionAndRoundNonNeg, hp, hf, hd, hm]
  split_ifs <;> omega

theorem mulInt_rate (a : Int) (h0 : 0 ≤ a) (h1 : a < 2 ^ 256) :
    MiniumInitialDepositRate.MulInt a = .ok ⟨MiniumInitialDepositRate.i * a⟩ := by
  have : ¬ (2 ^ maxDecBitLen ≤ (MiniumInitialDepositRate.i * a).natAbs) := by
    rw [rate_value]
    have h2 : ((200000000000000000 * a).natAbs : Int) = 200000000000000000 * a :=
      Int.natAbs_of_nonneg (by omega)
    intro hle
    have h3 : ((2 ^ maxDecBitLen : Nat) : Int) ≤ ((200000000000000000 * a).natAbs : Int) :=
      Int.ofNat_le.mpr hle
    rw [h2] at h3
    norm_num [maxDecBitLen, maxBitLen] at h3 h1
    omega
  simp [Dec.MulInt, bitLenExceeds, this]

theorem miniumInitialCoin_bounds (a : Int) (h0 : 0 ≤ a) :
    0 ≤ miniumInitialCoin a ∧ miniumInitialCoin a ≤ a := by
  rw [chopPrecisionAndRound_rate a h0]
  omega

theorem roundInt_rate (a : Int) (h0 : 0 ≤ a) (h1 : a < 2 ^ 256) :
    (Dec.mk (MiniumInitialDepositRate.i * a)).RoundInt = .ok (miniumInitialCoin a) := by
  have hb := miniumInitialCoin_bounds a h0
  have : ¬ (2 ^ maxBitLen ≤ (miniumInitialCoin a).natAbs) := by
    intro hle
    have h3 : ((2 ^ maxBitLen : Nat) : Int) ≤ ((miniumInitialCoin a).natAbs : Int) :=
      Int.ofNat_le.mpr hle
    rw [Int.natAbs_of_nonneg hb.1] at h3
    norm_num [maxBitLen] at h3 h1
    omega
  simp only [Dec.RoundInt, bitLenExceeds]
  rw [show chopPrecisionAndRound (MiniumInitialDepositRate.i * a) = miniumInitialCoin a from rfl]
  simp [this]

theorem newCoin_ok (reDnm : String → Bool) (denom : String) (amount : Int)
    (hd : reDnm denom = true) (ha : 0 ≤ amount) :
    NewCoin reDnm denom amount = .ok ⟨denom, amount⟩ := by
  simp [NewCoin, hd, not_lt.mpr ha]

theorem removeZeroCoins_of_nonzero (coins : Coins) (h : ∀ c ∈ coins, c.Amount ≠ 0) :
    removeZeroCoins coins = coins := by
  unfold removeZeroCoins
  rw [List.filter_eq_self]
  intro c hc
  simp [Coin.IsZero, h c hc]

/-- Adding one coin whose denomination lies above all denominations of a receiver without
zero coins appends it, unless its amount is zero. -/
theorem safeAdd_above (coin : Coin) :
    ∀ acc : Coins, (∀ x ∈ acc, x.Amount ≠ 0) → (∀ x ∈ acc, x.Denom.data < coin.Denom.data) →
      Coins.Add acc [coin] = .ok (acc ++ removeZeroCoins [coin]) := by
  intro acc
  induction acc with
  | nil => intro _ _; rfl
  | cons a rest ih =>
    intro hnz hlt
    have ih' := ih (fun x hx => hnz x (List.mem_cons_of_mem _ hx))
      (fun x hx => hlt x (List.mem_cons_of_mem _ hx))
    have ha : a.IsZero = false := by simp [Coin.IsZero, hnz a (List.mem_cons_self _ _)]
    unfold Coins.Add at ih' ⊢
    simp only [safeAdd, safeAdd.withHead, if_pos (hlt a (List.mem_cons_self _ _)), ih',
      Except.map, ha]
    rfl

theorem calc_loop_valid (reDnm : String → Bool) :
    ∀ (rest acc : Coins),
      (∀ c ∈ rest, reDnm c.Denom = true ∧ 0 ≤ c.Amount ∧ c.Amount < 2 ^ 256) →
      SortedByDenom rest →
      (∀ x ∈ acc, x.Amount ≠ 0) →
      (∀ x ∈ acc, ∀ c ∈ rest, x.Denom.data < c.Denom.data) →
      calcMiniumInitialDeposit.loop reDnm acc rest
        = .ok (acc ++ removeZeroCoins (rest.map miniumInitialCoinOf)) := by
  intro rest
  induction rest with
  | nil =>
    intro acc _ _ _ _
    simp [calcMiniumInitialDeposit.loop, removeZeroCoins]
  | cons c rest ih =>
    intro acc hv hs hnz hlt
    obtain ⟨hd, h0, h1⟩ := hv c (List.mem_cons_self _ _)
    have hb := miniumInitialCoin_bounds c.Amount h0
    have hadd := safeAdd_above (miniumInitialCoinOf c) acc hnz
      (fun x hx => hlt x hx c (List.mem_cons_self _ _))
    simp only [calcMiniumInitialDeposit.loop, mulInt_rate c.Amount h0 h1,
      roundInt_rate c.Amount h0 h1, newCoin_ok reDnm c.Denom _ hd hb.1]
    rw [show (Coin.mk c.Denom (miniumInitialCoin c.Amount)) = miniumInitialCoinOf c from rfl, hadd]
    simp only
    unfold SortedByDenom at hs
    rw [List.pairwise_cons] at hs
    rw [ih _ (fun x hx => hv x (List.mem_cons_of_mem _ hx)) hs.2]
    · simp [removeZeroCoins, List.filter_cons, List.append_assoc]
      split <;> simp
    · intro x hx
      rcases List.mem_append.mp hx with hx | hx
      · exact hnz x hx
      · simp only [removeZeroCoins, List.mem_filter, Coin.IsZero] at hx
        simpa using hx.2
    · intro x hx y hy
      rcases List.mem_append.mp hx with hx | hx
      · exact hlt x hx y (List.mem_cons_of_mem _ hy)
      · simp only [removeZeroCoins, List.mem_filter, List.mem_singleton] at hx
        rw [hx.1]
        exact hs.1 y hy

theorem int_range_of_bitLen (a : Int) (h0 : 0 ≤ a) (h : bitLenExceeds a maxBitLen = false) :
    a < 2 ^ 256 := by
  have h1 : ¬ (2 ^ maxBitLen ≤ a.natAbs) := of_decide_eq_false h
  have h2 : (a.natAbs : Int) = a := Int.natAbs_of_nonneg h0
  have h3 : (a.natAbs : Int) < ((2 ^ maxBitLen : Nat) : Int) := Int.ofNat_lt.mpr (by omega)
  rw [h2] at h3
  norm_num [maxBitLen] at h3 ⊢
  exact h3

theorem calc_of_valid (reDnm : String → Bool) (minDeposit : Coins)
    (h : Coins.IsValid reDnm minDeposit) :
    calcMiniumInitialDeposit reDnm minDeposit = .ok (computedMinimum minDeposit) := by
  unfold calcMiniumInitialDeposit
  rw [calc_loop_valid reDnm minDeposit [] (fun c hc => ⟨(h.1 c hc).1, le_of_lt (h.1 c hc).2.1,
    int_range_of_bitLen c.Amount (le_of_lt (h.1 c hc).2.1) (h.1 c hc).2.2⟩) h.2 (by simp) (by simp)]
  rfl

theorem amountOf_ok (reDnm : String → Bool) (coins : Coins) (denom : String)
    (hd : reDnm denom = true) (hs : SortedByDenom coins) :
    Coins.AmountOf reDnm coins denom = .ok (amountIn coins denom) := by
  simp [Coins.AmountOf, mustValidateDenom, hd,
    amountOfSearch_eq_amountIn denom coins.length coins (le_refl _) hs]

theorem denomsSubsetOf_loop_eval (reDnm : String → Bool) (coinsB : Coins)
    (hs : SortedByDenom coinsB) :
    ∀ coins : Coins, (∀ c ∈ coins, reDnm c.Denom = true) →
      Coins.DenomsSubsetOf.loop reDnm coinsB coins
        = .ok (coins.all (fun c => decide (amountIn coinsB c.Denom ≠ 0))) := by
  intro coins
  induction coins with
  | nil => intro _; rfl
  | cons c rest ih =>
    intro hd
    simp only [Coins.DenomsSubsetOf.loop, amountOf_ok reDnm coinsB c.Denom
      (hd c (List.mem_cons_self _ _)) hs, List.all_cons]
    split_ifs with h0
    · simp [h0]
    · rw [ih (fun x hx => hd x (List.mem_cons_of_mem _ hx))]
      simp [h0]

theorem isAllGT_loop_eval (reDnm : String → Bool) (coins : Coins)
    (hs : SortedByDenom coins) :
    ∀ coinsB : Coins, (∀ c ∈ coinsB, reDnm c.Denom = true) →
      Coins.IsAllGT.loop reDnm coins coinsB
        = .ok (coinsB.all (fun c => decide (c.Amount < amountIn coins c.Denom))) := by
  intro coinsB
  induction coinsB with
  | nil => intro _; rfl
  | cons c rest ih =>
    intro hd
    simp only [Coins.IsAllGT.loop, amountOf_ok reDnm coins c.Denom
      (hd c (List.mem_cons_self _ _)) hs, List.all_cons,
      ih (fun x hx => hd x (List.mem_cons_of_mem _ hx))]
    by_cases h0 : c.Amount < amountIn coins c.Denom
    · simp [h0]
    · simp [h0]

theorem isAllLT_eval (reDnm : String → Bool) (initialDeposit minimum : Coins)
    (hd : ∀ c ∈ initialDeposit, reDnm c.Denom = true) (hs : SortedByDenom minimum) :
    Coins.IsAllLT reDnm initialDeposit minimum = .ok (belowMinimum initialDeposit minimum) := by
  unfold Coins.IsAllLT Coins.IsAllGT belowMinimum Coins.DenomsSubsetOf
  cases minimum with
  | nil => simp
  | cons m ms =>
    cases initialDeposit with
    | nil => simp
    | cons c cs =>
      rw [denomsSubsetOf_loop_eval reDnm (m :: ms) hs (c :: cs) hd,
        isAllGT_loop_eval reDnm (m :: ms) hs (c :: cs) hd]
      generalize List.all (c :: cs) (fun c => decide (amountIn (m :: ms) c.Denom ≠ 0)) = sub
      generalize List.all (c :: cs) (fun c => decide (c.Amount < amountIn (m :: ms) c.Denom)) = gt
      simp only [List.length_cons, Nat.add_one_ne_zero, if_false, gt_iff_lt,
        Nat.add_lt_add_iff_right, Nat.add_le_add_iff_right, List.isEmpty_cons, Bool.not_false,
        Bool.true_and, Bool.false_or]
      by_cases hlen : ms.length < cs.length
      · have hle : ¬ (cs.length ≤ ms.length) := by omega
        simp [hlen, hle]
      · have hle : cs.length ≤ ms.length := by omega
        rw [if_neg hlen]
        cases sub <;> simp [hle]

theorem mem_computedMinimum (minDeposit : Coins) (m : Coin) :
    m ∈ computedMinimum minDeposit
      ↔ ∃ c ∈ minDeposit, miniumInitialCoinOf c = m ∧ miniumInitialCoin c.Amount ≠ 0 := by
  simp only [computedMinimum, removeZeroCoins, List.mem_filter, List.mem_map, Coin.IsZero]
  constructor
  · rintro ⟨⟨c, hc, rfl⟩, hz⟩
    exact ⟨c, hc, rfl, by simpa [miniumInitialCoinOf] using hz⟩
  · rintro ⟨c, hc, rfl, hz⟩
    exact ⟨⟨c, hc, rfl⟩, by simpa [miniumInitialCoinOf] using hz⟩

theorem computedMinimum_sorted (minDeposit : Coins) (hs : SortedByDenom minDeposit) :
    SortedByDenom (computedMinimum minDeposit) := by
  unfold computedMinimum removeZeroCoins SortedByDenom
  apply List.Pairwise.sublist (List.filter_sublist _)
  rw [List.pairwise_map]
  exact hs

theorem computedMinimum_cons (c : Coin) (rest : Coins) :
    computedMinimum (c :: rest)
      = if miniumInitialCoin c.Amount = 0 then computedMinimum rest
        else miniumInitialCoinOf c :: computedMinimum rest := by
  simp only [computedMinimum, removeZeroCoins, List.map_cons, List.filter_cons, Coin.IsZero,
    miniumInitialCoinOf]
  split_ifs <;> simp_all

theorem amountIn_computedMinimum_absent (minDeposit : Coins) (denom : String)
    (h : ∀ c ∈ minDeposit, c.Denom ≠ denom) : amountIn (computedMinimum minDeposit) denom = 0 := by
  apply amountIn_of_absent
  intro m hm
  obtain ⟨c, hc, rfl, _⟩ := (mem_computedMinimum minDeposit m).mp hm
  exact h c hc

theorem amountIn_computedMinimum (minDeposit : Coins) (hs : SortedByDenom minDeposit)
    (c : Coin) (hc : c ∈ minDeposit) :
    amountIn (computedMinimum minDeposit) c.Denom = miniumInitialCoin c.Amount := by
  induction minDeposit with
  | nil => cases hc
  | cons x rest ih =>
    unfold SortedByDenom at hs
    rw [List.pairwise_cons] at hs
    rw [computedMinimum_cons]
    rcases List.mem_cons.mp hc with rfl | hc
    · have habs : amountIn (computedMinimum rest) c.Denom = 0 :=
        amountIn_computedMinimum_absent rest c.Denom
          (fun y hy => (denom_ne_of_lt (hs.1 y hy)).symm)
      split_ifs with hz
      · rw [habs, hz]
      · simp [amountIn, miniumInitialCoinOf]
    · have hne : x.Denom ≠ c.Denom := denom_ne_of_lt (hs.1 c hc)
      split_ifs with hz
      · exact ih hs.2 hc
      · simp only [amountIn, miniumInitialCoinOf, hne, if_false]
        exact ih hs.2 hc

/-- The decision of `validMsg` on a proposal submission, for a well-formed minimum
deposit and an attached deposit whose denominations are valid. -/
theorem validMsg_proposal_of_valid (reDnm : String → Bool) (gpsd : GovPreventSpamDecorator)
    (ctx : Context) (initialDeposit : Coins)
    (hmin : Coins.IsValid reDnm (gpsd.govKeeper.GetDepositParams ctx).MinDeposit)
    (hd : ∀ c ∈ initialDeposit, reDnm c.Denom = true) :
    checkSpamSubmitProposalMsg.validMsg reDnm gpsd ctx (.MsgSubmitProposal initialDeposit)
      = .ok (if belowMinimum initialDeposit
              (computedMinimum (gpsd.govKeeper.GetDepositParams ctx).MinDeposit)
          then some (insufficientDepositError
              (computedMinimum (gpsd.govKeeper.GetDepositParams ctx).MinDeposit))
          else none) := by
  simp only [checkSpamSubmitProposalMsg.validMsg, calc_of_valid reDnm _ hmin,
    isAllLT_eval reDnm initialDeposit _ hd (computedMinimum_sorted _ hmin.2)]
  cases belowMinimum initialDeposit
    (computedMinimum (gpsd.govKeeper.GetDepositParams ctx).MinDeposit) <;> rfl

theorem amountIn_mem_of_ne_zero (coins : Coins) (denom : String)
    (h : amountIn coins denom ≠ 0) :
    ∃ c ∈ coins, c.Denom = denom ∧ c.Amount = amountIn coins denom := by
  induction coins with
  | nil => exact absurd rfl h
  | cons x rest ih =>
    by_cases hx : x.Denom = denom
    · exact ⟨x, List.mem_cons_self _ _, hx, by simp [amountIn, hx]⟩
    · have hr : amountIn (x :: rest) denom = amountIn rest denom := by simp [amountIn, hx]
      rw [hr] at h ⊢
      obtain ⟨c, hc, hcd, hca⟩ := ih h
      exact ⟨c, List.mem_cons_of_mem _ hc, hcd, hca⟩

theorem amountIn_of_mem_sorted (coins : Coins) (hs : SortedByDenom coins) (c : Coin)
    (hc : c ∈ coins) : amountIn coins c.Denom = c.Amount := by
  induction coins with
  | nil => cases hc
  | cons x rest ih =>
    unfold SortedByDenom at hs
    rw [List.pairwise_cons] at hs
    rcases List.mem_cons.mp hc with rfl | hc
    · simp [amountIn]
    · simp only [amountIn, denom_ne_of_lt (hs.1 c hc), if_false]
      exact ih hs.2 hc

theorem belowMinimum_false_of_covered (initialDeposit minimum : Coins) (c : Coin)
    (hc : c ∈ initialDeposit) (hge : amountIn minimum c.Denom ≤ c.Amount) :
    belowMinimum initialDeposit minimum = false := by
  have hne : initialDeposit.isEmpty = false := by
    cases initialDeposit with
    | nil => cases hc
    | cons _ _ => rfl
  have hall : initialDeposit.all (fun c => decide (c.Amount < amountIn minimum c.Denom)) = false := by
    rw [List.all_eq_false]
    exact ⟨c, hc, by simpa using hge⟩
  simp [belowMinimum, hne, hall]

theorem amountIn_nonneg (coins : Coins) (denom : String) (h : ∀ c ∈ coins, 0 ≤ c.Amount) :
    0 ≤ amountIn coins denom := by
  induction coins with
  | nil => exact le_refl _
  | cons x rest ih =>
    simp only [amountIn]
    split_ifs
    · exact h x (List.mem_cons_self _ _)
    · exact ih (fun c hc => h c (List.mem_cons_of_mem _ hc))

theorem length_le_of_denoms_subset (a b : Coins) (hs : SortedByDenom a)
    (hsub : ∀ c ∈ a, ∃ m ∈ b, m.Denom = c.Denom) : a.length ≤ b.length := by
  have hn : (a.map Coin.Denom).Nodup := by
    unfold List.Nodup
    rw [List.pairwise_map]
    exact hs.imp (fun h => denom_ne_of_lt h)
  have hss : a.map Coin.Denom ⊆ b.map Coin.Denom := by
    intro d hd
    obtain ⟨c, hc, rfl⟩ := List.mem_map.mp hd
    obtain ⟨m, hm, hmd⟩ := hsub c hc
    exact List.mem_map.mpr ⟨m, hm, hmd⟩
  have := (List.subperm_of_subset hn hss).length_le
  simpa using this

/-- For an attached deposit with distinct denominations, all of them denominations of a
sorted minimum with positive amounts, the rejection test compares every coin of the
minimum with the attached amount of its denomination, zero when absent. -/
theorem belowMinimum_iff (initialDeposit minimum : Coins) (hd : SortedByDenom initialDeposit)
    (hm : SortedByDenom minimum) (hpos : ∀ m ∈ minimum, 0 < m.Amount)
    (hsub : ∀ c ∈ initialDeposit, ∃ m ∈ minimum, m.Denom = c.Denom) :
    belowMinimum initialDeposit minimum = true
      ↔ minimum ≠ [] ∧ ∀ m ∈ minimum, amountIn initialDeposit m.Denom < m.Amount := by
  have hval : ∀ c ∈ initialDeposit, 0 < amountIn minimum c.Denom := by
    intro c hc
    obtain ⟨m, hmm, hmd⟩ := hsub c hc
    rw [← hmd, amountIn_of_mem_sorted minimum hm m hmm]
    exact hpos m hmm
  have hlen := length_le_of_denoms_subset initialDeposit minimum hd hsub
  have hnz : initialDeposit.all (fun c => decide (amountIn minimum c.Denom ≠ 0)) = true := by
    rw [List.all_eq_true]
    intro c hc
    have := hval c hc
    simp only [ne_eq, decide_not, Bool.not_eq_true', decide_eq_false_iff_not]
    omega
  constructor
  · intro hb
    simp only [belowMinimum, Bool.and_eq_true, Bool.not_eq_true', Bool.or_eq_true,
      List.all_eq_true, decide_eq_true_eq] at hb
    obtain ⟨hne, hrest⟩ := hb
    have hne2 : minimum ≠ [] := by
      intro h
      rw [h] at hne
      cases hne
    refine ⟨hne2, ?_⟩
    intro m hmm
    by_cases habs : amountIn initialDeposit m.Denom = 0
    · rw [habs]
      exact hpos m hmm
    · obtain ⟨c, hc, hcd, hca⟩ := amountIn_mem_of_ne_zero initialDeposit m.Denom habs
      rcases hrest with hemp | ⟨_, hall⟩
      · cases initialDeposit with
        | nil => cases hc
        | cons _ _ => cases hemp
      · have := hall c hc
        rw [hcd, amountIn_of_mem_sorted minimum hm m hmm, hca] at this
        exact this
  · rintro ⟨hne, hall⟩
    have hne' : minimum.isEmpty = false := by
      cases minimum with
      | nil => exact absurd rfl hne
      | cons _ _ => rfl
    have hlt : initialDeposit.all (fun c => decide (c.Amount < amountIn minimum c.Denom)) = true := by
      rw [List.all_eq_true]
      intro c hc
      obtain ⟨m, hmm, hmd⟩ := hsub c hc
      have := hall m hmm
      rw [hmd, amountIn_of_mem_sorted initialDeposit hd c hc] at this
      rw [← hmd, amountIn_of_mem_sorted minimum hm m hmm]
      simpa using this
    unfold belowMinimum
    rw [hne', hnz, hlt, decide_eq_true hlen]
    simp

theorem computedMinimum_pos (reDnm : String → Bool) (minDeposit : Coins)
    (hmin : Coins.IsValid reDnm minDeposit) :
    ∀ m ∈ computedMinimum minDeposit, 0 < m.Amount := by
  intro m hm
  obtain ⟨c, hc, rfl, hz⟩ := (mem_computedMinimum minDeposit m).mp hm
  have := (miniumInitialCoin_bounds c.Amount (le_of_lt (hmin.1 c hc).2.1)).1
  simp only [miniumInitialCoinOf]
  omega

theorem anteHandle_rejects (reDnm : String → Bool) (gpsd : GovPreventSpamDecorator)
    (ctx : Context) (tx : Tx) (next : AnteHandler) (err : Error) (hctx : ctx.IsCheckTx = true)
    (h : checkSpamSubmitProposalMsg reDnm gpsd ctx tx.GetMsgs = .ok (some err)) :
    gpsd.AnteHandle reDnm ctx tx false next = .ok (ctx, some err) := by
  rw [anteHandle_of_check _ _ _ _ _ hctx]
  rw [show tx.Msgs = tx.GetMsgs from rfl, h]

theorem anteHandle_passes (reDnm : String → Bool) (gpsd : GovPreventSpamDecorator)
    (ctx : Context) (tx : Tx) (next : AnteHandler) (hctx : ctx.IsCheckTx = true)
    (h : checkSpamSubmitProposalMsg reDnm gpsd ctx tx.GetMsgs = .ok none) :
    gpsd.AnteHandle reDnm ctx tx false next = next ctx tx false := by
  rw [anteHandle_of_check _ _ _ _ _ hctx]
  rw [show tx.Msgs = tx.GetMsgs from rfl, h]

theorem check_single_proposal (reDnm : String → Bool) (gpsd : GovPreventSpamDecorator)
    (ctx : Context) (initialDeposit : Coins) :
    checkSpamSubmitProposalMsg reDnm gpsd ctx [.MsgSubmitProposal initialDeposit]
      = checkSpamSubmitProposalMsg.validMsg reDnm gpsd ctx (.MsgSubmitProposal initialDeposit) := by
  rw [check_single]
  rfl

/-! ## Gating, unwrapping and short-circuiting -/

/-- C1: outside mempool admission (`IsCheckTx` false) or when simulating, `AnteHandle`
returns exactly what the next handler returns on the same context, transaction and flag,
whatever the messages of the transaction are. -/
theorem anteHandle_outside_admission (reDnm : String → Bool) (gpsd : GovPreventSpamDecorator)
    (ctx : Context) (tx : Tx) (simulate : Bool) (next : AnteHandler)
    (h : ctx.IsCheckTx = false ∨ simulate = true) :
    gpsd.AnteHandle reDnm ctx tx simulate next = next ctx tx simulate := by
  rcases h with h | h <;> simp [GovPreventSpamDecorator.AnteHandle, h]

/-- Witness of C1: block execution of a transaction holding a proposal without deposit
and an envelope with an undecodable inner message. -/
theorem anteHandle_outside_admission_witness :
    ((sampleContext false [⟨"stake", 1000⟩]).IsCheckTx = false ∨ false = true)
      ∧ sampleDecorator.AnteHandle DefaultCoinDenomRegex (sampleContext false [⟨"stake", 1000⟩])
          ⟨[.MsgSubmitProposal [], .MsgExec [packedGarbage]], ""⟩ false acceptNext
        = acceptNext (sampleContext false [⟨"stake", 1000⟩])
            ⟨[.MsgSubmitProposal [], .MsgExec [packedGarbage]], ""⟩ false :=
  ⟨by decide, anteHandle_outside_admission _ _ _ _ _ _ (by decide)⟩

/-- Counterexample to C6, with a minimum deposit of 1000 "stake". A transaction whose
first message is a proposal without deposit and whose second message is an envelope
with an undecodable inner message is rejected with the insufficient-funds error of the
first message; so is a single envelope whose first inner message is a proposal of
1 "stake" and whose second inner message is undecodable. Neither error is the
unauthorized one. -/
theorem undecodable_envelope_not_always_unauthorized :
    sampleDecorator.cdc.UnpackAny packedGarbage = .error (.registered "sdk" 2 "tx parse error")
      ∧ checkSpamSubmitProposalMsg DefaultCoinDenomRegex sampleDecorator stakeContext
          [.MsgSubmitProposal [], .MsgExec [packedGarbage]]
        = .ok (some (insufficientDepositError [⟨"stake", 200⟩]))
      ∧ checkSpamSubmitProposalMsg DefaultCoinDenomRegex sampleDecorator stakeContext
          [.MsgExec [packedProposal [1], packedGarbage]]
        = .ok (some (insufficientDepositError [⟨"stake", 200⟩]))
      ∧ insufficientDepositError [⟨"stake", 200⟩] ≠ cannotUnmarshalError := by
  refine ⟨rfl, rfl, rfl, by decide⟩

/-- C6, amended: when every message before the envelope passes, and every inner message
before the undecodable one decodes and passes, the check returns the unauthorized error,
whatever follows the undecodable message inside the envelope and whatever messages
follow the envelope. -/
theorem undecodable_envelope_unauthorized (reDnm : String → Bool)
    (gpsd : GovPreventSpamDecorator) (ctx : Context) (pre post : List Msg)
    (innerPre innerPost : List Any) (bad : Any) (decodeErr : Error)
    (hpre : ∀ m ∈ pre, checkSpamSubmitProposalMsg reDnm gpsd ctx [m] = .ok none)
    (hinner : checkSpamSubmitProposalMsg.validAuthz reDnm gpsd ctx innerPre = .ok none)
    (hbad : gpsd.cdc.UnpackAny bad = .error decodeErr) :
    checkSpamSubmitProposalMsg reDnm gpsd ctx
        (pre ++ [.MsgExec (innerPre ++ bad :: innerPost)] ++ post)
      = .ok (some (.wrapf ErrUnauthorized "cannot unmarshal authz exec msgs" [])) := by
  rw [List.append_assoc, check_append, check_all_pass _ _ _ _ hpre, andThen_ok_none,
    List.singleton_append, check_cons]
  simp only [checkOne]
  rw [validAuthz_append, hinner, andThen_ok_none, validAuthz_cons]
  simp only [authzOne, hbad]
  rfl

/-- Witness of the amended C6: a coin transfer, then an envelope holding a sufficient
proposal, an undecodable message and an insufficient proposal, then a proposal without
deposit. -/
theorem undecodable_envelope_unauthorized_witness :
    (∀ m ∈ [Msg.other packedSend],
        checkSpamSubmitProposalMsg DefaultCoinDenomRegex sampleDecorator
          (sampleContext true [⟨"stake", 1000⟩]) [m] = .ok none)
      ∧ checkSpamSubmitProposalMsg.validAuthz DefaultCoinDenomRegex sampleDecorator
          (sampleContext true [⟨"stake", 1000⟩]) [packedProposal [200]] = .ok none
      ∧ sampleDecorator.cdc.UnpackAny packedGarbage = .error (.registered "sdk" 2 "tx parse error")
      ∧ checkSpamSubmitProposalMsg DefaultCoinDenomRegex sampleDecorator
          (sampleContext true [⟨"stake", 1000⟩])
          ([Msg.other packedSend]
            ++ [.MsgExec ([packedProposal [200]] ++ packedGarbage :: [packedProposal [1]])]
            ++ [.MsgSubmitProposal []])
        = .ok (some (.wrapf ErrUnauthorized "cannot unmarshal authz exec msgs" [])) :=
  have h1 : ∀ m ∈ [Msg.other packedSend],
      checkSpamSubmitProposalMsg DefaultCoinDenomRegex sampleDecorator
        (sampleContext true [⟨"stake", 1000⟩]) [m] = .ok none := by
    intro m hm
    rw [List.mem_singleton] at hm
    subst hm
    rfl
  ⟨h1, rfl, rfl,
    undecodable_envelope_unauthorized _ _ _ _ _ _ _ _ _ h1 rfl rfl⟩

/-- C7: when every inner message of an envelope decodes to a message that is not itself
an envelope, the check of the transaction made of that envelope alone returns the same
result (no error, or the same error with the same carried minimum, or the same panic) as
the check of the decoded messages submitted directly in the same order. -/
theorem envelope_unwrapping_transparent (reDnm : String → Bool)
    (gpsd : GovPreventSpamDecorator) (ctx : Context) (inner : List Any) (decoded : List Msg)
    (h : List.Forall₂ (fun v m => gpsd.cdc.UnpackAny v = .ok m ∧ m.isMsgExec = false)
      inner decoded) :
    checkSpamSubmitProposalMsg reDnm gpsd ctx [.MsgExec inner]
      = checkSpamSubmitProposalMsg reDnm gpsd ctx decoded := by
  rw [check_single]
  exact check_exec_eq_of_decoded reDnm gpsd ctx inner decoded h

/-- Witness of C7: an enveloped proposal with 199 "stake" against a minimum of 1000 is
rejected exactly as the direct proposal is. -/
theorem envelope_unwrapping_transparent_witness :
    List.Forall₂ (fun v m => sampleDecorator.cdc.UnpackAny v = .ok m ∧ m.isMsgExec = false)
        [packedProposal [199], packedSend]
        [.MsgSubmitProposal [⟨"stake", 199⟩], .other packedSend]
      ∧ checkSpamSubmitProposalMsg DefaultCoinDenomRegex sampleDecorator
          (sampleContext true [⟨"stake", 1000⟩]) [.MsgExec [packedProposal [199], packedSend]]
        = checkSpamSubmitProposalMsg DefaultCoinDenomRegex sampleDecorator
          (sampleContext true [⟨"stake", 1000⟩])
          [.MsgSubmitProposal [⟨"stake", 199⟩], .other packedSend]
      ∧ checkSpamSubmitProposalMsg DefaultCoinDenomRegex sampleDecorator
          (sampleContext true [⟨"stake", 1000⟩])
          [.MsgSubmitProposal [⟨"stake", 199⟩], .other packedSend]
        = .ok (some (insufficientDepositError [⟨"stake", 200⟩])) :=
  have h : List.Forall₂
      (fun v m => sampleDecorator.cdc.UnpackAny v = .ok m ∧ m.isMsgExec = false)
      [packedProposal [199], packedSend]
      [.MsgSubmitProposal [⟨"stake", 199⟩], .other packedSend] :=
    .cons ⟨rfl, rfl⟩ (.cons ⟨rfl, rfl⟩ .nil)
  ⟨h, envelope_unwrapping_transparent _ _ _ _ _ h, rfl⟩

/-- C8: a transaction none of whose messages is a proposal submission or an envelope
passes the check, and `AnteHandle` returns what the next handler returns, for every
context (hence every minimum deposit) and every simulate flag. -/
theorem unrelated_messages_pass (reDnm : String → Bool) (gpsd : GovPreventSpamDecorator)
    (ctx : Context) (tx : Tx) (simulate : Bool) (next : AnteHandler)
    (h : ∀ m ∈ tx.GetMsgs, m.isMsgSubmitProposal = false ∧ m.isMsgExec = false) :
    checkSpamSubmitProposalMsg reDnm gpsd ctx tx.GetMsgs = .ok none
      ∧ gpsd.AnteHandle reDnm ctx tx simulate next = next ctx tx simulate := by
  have hc : checkSpamSubmitProposalMsg reDnm gpsd ctx tx.GetMsgs = .ok none := by
    apply check_all_pass
    intro m hm
    rw [check_single, checkOne_of_not_exec _ _ _ _ (h m hm).2]
    exact validMsg_other _ _ _ _ (h m hm).1
  refine ⟨hc, ?_⟩
  simp only [GovPreventSpamDecorator.AnteHandle, hc]
  split <;> rfl

/-- Witness of C8: a coin transfer in admission context. -/
theorem unrelated_messages_pass_witness :
    (∀ m ∈ (Tx.mk [.other packedSend, .other packedGarbage] "memo").GetMsgs,
        m.isMsgSubmitProposal = false ∧ m.isMsgExec = false)
      ∧ checkSpamSubmitProposalMsg DefaultCoinDenomRegex sampleDecorator
          (sampleContext true [⟨"stake", 1000⟩])
          (Tx.mk [.other packedSend, .other packedGarbage] "memo").GetMsgs = .ok none
      ∧ sampleDecorator.AnteHandle DefaultCoinDenomRegex (sampleContext true [⟨"stake", 1000⟩])
          (Tx.mk [.other packedSend, .other packedGarbage] "memo") false acceptNext
        = acceptNext (sampleContext true [⟨"stake", 1000⟩])
          (Tx.mk [.other packedSend, .other packedGarbage] "memo") false :=
  have h : ∀ m ∈ (Tx.mk [.other packedSend, .other packedGarbage] "memo").GetMsgs,
      m.isMsgSubmitProposal = false ∧ m.isMsgExec = false := by
    intro m hm
    simp only [Tx.GetMsgs, List.mem_cons, List.mem_singleton, List.not_mem_nil, or_false] at hm
    rcases hm with rfl | rfl <;> exact ⟨rfl, rfl⟩
  ⟨h, unrelated_messages_pass _ _ _ _ _ _ h⟩

/-- C9: evaluation is in order and stops at the first error. When every message of
`pre` passes and `m` fails with `e`, the check of `pre ++ [m] ++ post` returns `e`
whatever `post` is; the check of `a ++ b` is the check of `a` unless that returned no
error, in which case it is the check of `b`; and the inner messages of one envelope
are sequenced the same way. -/
theorem check_short_circuits (reDnm : String → Bool) (gpsd : GovPreventSpamDecorator)
    (ctx : Context) (pre post : List Msg) (m : Msg) (e : Error)
    (hpre : ∀ x ∈ pre, checkSpamSubmitProposalMsg reDnm gpsd ctx [x] = .ok none)
    (hm : checkSpamSubmitProposalMsg reDnm gpsd ctx [m] = .ok (some e)) :
    checkSpamSubmitProposalMsg reDnm gpsd ctx (pre ++ [m] ++ post) = .ok (some e)
      ∧ (∀ a b : List Msg,
          checkSpamSubmitProposalMsg reDnm gpsd ctx (a ++ b)
            = match checkSpamSubmitProposalMsg reDnm gpsd ctx a with
              | .ok none => checkSpamSubmitProposalMsg reDnm gpsd ctx b
              | r => r)
      ∧ (∀ a b : List Any,
          checkSpamSubmitProposalMsg.validAuthz reDnm gpsd ctx (a ++ b)
            = match checkSpamSubmitProposalMsg.validAuthz reDnm gpsd ctx a with
              | .ok none => checkSpamSubmitProposalMsg.validAuthz reDnm gpsd ctx b
              | r => r)
      ∧ (∀ a b : List Any,
          checkSpamSubmitProposalMsg reDnm gpsd ctx [.MsgExec (a ++ b)]
            = match checkSpamSubmitProposalMsg reDnm gpsd ctx [.MsgExec a] with
              | .ok none => checkSpamSubmitProposalMsg reDnm gpsd ctx [.MsgExec b]
              | r => r) := by
  refine ⟨?_, ?_, ?_, ?_⟩
  · rw [List.append_assoc, check_append, check_all_pass _ _ _ _ hpre, andThen_ok_none,
      check_append, hm]
    rfl
  · intro a b
    exact check_append reDnm gpsd ctx a b
  · intro a b
    exact validAuthz_append reDnm gpsd ctx a b
  · intro a b
    rw [check_single, check_single, check_single]
    exact validAuthz_append reDnm gpsd ctx a b

/-- Witness of C9: after a passing coin transfer, a proposal with 199 "stake" fails
against a minimum of 1000, and the undecodable envelope behind it is never examined. -/
theorem check_short_circuits_witness :
    (∀ x ∈ [Msg.other packedSend],
        checkSpamSubmitProposalMsg DefaultCoinDenomRegex sampleDecorator
          (sampleContext true [⟨"stake", 1000⟩]) [x] = .ok none)
      ∧ checkSpamSubmitProposalMsg DefaultCoinDenomRegex sampleDecorator
          (sampleContext true [⟨"stake", 1000⟩]) [.MsgSubmitProposal [⟨"stake", 199⟩]]
        = .ok (some (insufficientDepositError [⟨"stake", 200⟩]))
      ∧ checkSpamSubmitProposalMsg DefaultCoinDenomRegex sampleDecorator
          (sampleContext true [⟨"stake", 1000⟩])
          ([Msg.other packedSend] ++ [.MsgSubmitProposal [⟨"stake", 199⟩]]
            ++ [.MsgExec [packedGarbage], .MsgSubmitProposal []])
        = .ok (some (insufficientDepositError [⟨"stake", 200⟩])) :=
  have h1 : ∀ x ∈ [Msg.other packedSend],
      checkSpamSubmitProposalMsg DefaultCoinDenomRegex sampleDecorator
        (sampleContext true [⟨"stake", 1000⟩]) [x] = .ok none := by
    intro x hx
    rw [List.mem_singleton] at hx
    subst hx
    rfl
  ⟨h1, rfl,
    (check_short_circuits DefaultCoinDenomRegex sampleDecorator
      (sampleContext true [⟨"stake", 1000⟩]) [Msg.other packedSend]
      [.MsgExec [packedGarbage], .MsgSubmitProposal []] (.MsgSubmitProposal [⟨"stake", 199⟩])
      (insufficientDepositError [⟨"stake", 200⟩]) h1 rfl).1⟩

/-- C10: when the deposit parameters give an empty minimum deposit, every proposal
submission passes the check, for every attached initial deposit, submitted directly or
inside an envelope. -/
theorem empty_min_deposit_enforces_nothing (reDnm : String → Bool)
    (gpsd : GovPreventSpamDecorator) (ctx : Context)
    (hmin : (gpsd.govKeeper.GetDepositParams ctx).MinDeposit = []) :
    (∀ initialDeposit : Coins,
        checkSpamSubmitProposalMsg reDnm gpsd ctx [.MsgSubmitProposal initialDeposit] = .ok none)
      ∧ (∀ inner : List Any,
          (∀ v ∈ inner, ∃ initialDeposit : Coins,
            gpsd.cdc.UnpackAny v = .ok (.MsgSubmitProposal initialDeposit)) →
          checkSpamSubmitProposalMsg reDnm gpsd ctx [.MsgExec inner] = .ok none)
      ∧ (∀ (tx : Tx) (next : AnteHandler), ctx.IsCheckTx = true →
          (∀ m ∈ tx.GetMsgs, m.isMsgSubmitProposal = true) →
          gpsd.AnteHandle reDnm ctx tx false next = next ctx tx false) := by
  have hv : ∀ D : Coins,
      checkSpamSubmitProposalMsg.validMsg reDnm gpsd ctx (.MsgSubmitProposal D) = .ok none := by
    intro D
    simp [checkSpamSubmitProposalMsg.validMsg, hmin, calcMiniumInitialDeposit,
      calcMiniumInitialDeposit.loop, Coins.IsAllLT, Coins.IsAllGT]
  refine ⟨?_, ?_, ?_⟩
  · intro D
    rw [check_single]
    exact hv D
  · intro inner hinner
    rw [check_single]
    simp only [checkOne]
    induction inner with
    | nil => rfl
    | cons v rest ih =>
      obtain ⟨D, hD⟩ := hinner v (List.mem_cons_self _ _)
      rw [validAuthz_cons]
      simp only [authzOne, hD, hv D, andThen_ok_none]
      exact ih (fun x hx => hinner x (List.mem_cons_of_mem _ hx))
  · intro tx next hctx hall
    rw [anteHandle_of_check _ _ _ _ _ hctx]
    have hc : checkSpamSubmitProposalMsg reDnm gpsd ctx tx.Msgs = .ok none := by
      apply check_all_pass
      intro m hm
      have := hall m hm
      cases m <;> simp_all [Msg.isMsgSubmitProposal]
      rw [check_single]
      exact hv _
    rw [hc]

/-- Witness of C10: with no minimum deposit published, a proposal without deposit
passes directly and inside an envelope. -/
theorem empty_min_deposit_enforces_nothing_witness :
    (sampleDecorator.govKeeper.GetDepositParams (sampleContext true [])).MinDeposit = []
      ∧ checkSpamSubmitProposalMsg DefaultCoinDenomRegex sampleDecorator (sampleContext true [])
          [.MsgSubmitProposal []] = .ok none
      ∧ checkSpamSubmitProposalMsg DefaultCoinDenomRegex sampleDecorator (sampleContext true [])
          [.MsgExec [packedProposal [], packedProposal [1]]] = .ok none :=
  ⟨rfl, (empty_min_deposit_enforces_nothing DefaultCoinDenomRegex sampleDecorator
      (sampleContext true []) rfl).1 [],
    rfl⟩

/-! ## The deposit comparison -/

/-- Counterexample to C2, at three inputs where every denomination of the minimum
deposit has an attached amount strictly below 20% of the published amount and the check
passes all the same. With a minimum of 1002 "stake" the exact 20% is 200.4 and the
computed minimum is the rounded 200 "stake", which an attached 200 "stake" is not below.
With a minimum of 1000 "stake", an attached 1 "other" and 1 "stake" holds a denomination
that the computed minimum lacks. With an empty minimum deposit the computed minimum is
empty and nothing is below it. -/
theorem below_exact_rate_not_rejected :
    ((∀ c ∈ [Coin.mk "stake" 1002], 5 * amountIn [Coin.mk "stake" 200] c.Denom < c.Amount)
        ∧ calcMiniumInitialDeposit DefaultCoinDenomRegex [⟨"stake", 1002⟩]
          = .ok [⟨"stake", 200⟩]
        ∧ checkSpamSubmitProposalMsg DefaultCoinDenomRegex sampleDecorator
            (sampleContext true [⟨"stake", 1002⟩]) [.MsgSubmitProposal [⟨"stake", 200⟩]]
          = .ok none)
      ∧ ((∀ c ∈ [Coin.mk "stake" 1000],
            5 * amountIn [Coin.mk "other" 1, Coin.mk "stake" 1] c.Denom < c.Amount)
        ∧ checkSpamSubmitProposalMsg DefaultCoinDenomRegex sampleDecorator
            (sampleContext true [⟨"stake", 1000⟩])
            [.MsgSubmitProposal [⟨"other", 1⟩, ⟨"stake", 1⟩]]
          = .ok none)
      ∧ ((∀ c ∈ ([] : Coins), 5 * amountIn [] c.Denom < c.Amount)
        ∧ checkSpamSubmitProposalMsg DefaultCoinDenomRegex sampleDecorator
            (sampleContext true []) [.MsgSubmitProposal []]
          = .ok none) := by
  refine ⟨⟨by decide, rfl, rfl⟩, ⟨by decide, rfl⟩, ⟨by decide, rfl⟩⟩

/-- C2, amended: for a well-formed, non-empty minimum deposit and a proposal submission
whose attached deposit is a well-formed coin set without a denomination outside the
minimum deposit, if for every coin of the minimum deposit the attached amount of its
denomination (zero when absent) is strictly less than 20% of the published amount
rounded to the nearest integer, then the check rejects with the insufficient-funds
error carrying exactly the value of `calcMiniumInitialDeposit`, and in admission context
`AnteHandle` returns that error with the context it received. -/
theorem insufficient_deposit_rejected (reDnm : String → Bool) (gpsd : GovPreventSpamDecorator)
    (ctx : Context) (initialDeposit : Coins)
    (hmin : Coins.IsValid reDnm (gpsd.govKeeper.GetDepositParams ctx).MinDeposit)
    (hne : (gpsd.govKeeper.GetDepositParams ctx).MinDeposit ≠ [])
    (hdep : Coins.IsValid reDnm initialDeposit)
    (hsub : ∀ c ∈ initialDeposit,
      ∃ m ∈ (gpsd.govKeeper.GetDepositParams ctx).MinDeposit, m.Denom = c.Denom)
    (hlt : ∀ m ∈ (gpsd.govKeeper.GetDepositParams ctx).MinDeposit,
      amountIn initialDeposit m.Denom < miniumInitialCoin m.Amount) :
    ∃ miniumInitialDeposit : Coins,
      calcMiniumInitialDeposit reDnm (gpsd.govKeeper.GetDepositParams ctx).MinDeposit
          = .ok miniumInitialDeposit
        ∧ checkSpamSubmitProposalMsg reDnm gpsd ctx [.MsgSubmitProposal initialDeposit]
          = .ok (some (.wrapf ErrInsufficientFunds "not enough initial deposit. required: %v"
              [miniumInitialDeposit]))
        ∧ ∀ (tx : Tx) (next : AnteHandler), ctx.IsCheckTx = true →
            tx.GetMsgs = [.MsgSubmitProposal initialDeposit] →
            gpsd.AnteHandle reDnm ctx tx false next
              = .ok (ctx, some (.wrapf ErrInsufficientFunds
                  "not enough initial deposit. required: %v" [miniumInitialDeposit])) := by
  have hfloor : ∀ m ∈ (gpsd.govKeeper.GetDepositParams ctx).MinDeposit,
      miniumInitialCoin m.Amount ≠ 0 := by
    intro m hm
    have h1 := hlt m hm
    have h2 := amountIn_nonneg initialDeposit m.Denom (fun c hc => le_of_lt (hdep.1 c hc).2.1)
    omega
  have hmem : ∀ m ∈ (gpsd.govKeeper.GetDepositParams ctx).MinDeposit,
      miniumInitialCoinOf m ∈ computedMinimum (gpsd.govKeeper.GetDepositParams ctx).MinDeposit :=
    fun m hm => (mem_computedMinimum _ _).mpr ⟨m, hm, rfl, hfloor m hm⟩
  have hbelow : belowMinimum initialDeposit
      (computedMinimum (gpsd.govKeeper.GetDepositParams ctx).MinDeposit) = true := by
    rw [belowMinimum_iff initialDeposit _ hdep.2 (computedMinimum_sorted _ hmin.2)
      (computedMinimum_pos reDnm _ hmin)]
    · refine ⟨?_, ?_⟩
      · obtain ⟨m, hm⟩ := List.exists_mem_of_ne_nil _ hne
        exact List.ne_nil_of_mem (hmem m hm)
      · intro x hx
        obtain ⟨m, hm, rfl, _⟩ := (mem_computedMinimum _ x).mp hx
        exact hlt m hm
    · intro c hc
      obtain ⟨m, hm, hmd⟩ := hsub c hc
      exact ⟨miniumInitialCoinOf m, hmem m hm, hmd⟩
  have hcheck : checkSpamSubmitProposalMsg reDnm gpsd ctx [.MsgSubmitProposal initialDeposit]
      = .ok (some (insufficientDepositError
          (computedMinimum (gpsd.govKeeper.GetDepositParams ctx).MinDeposit))) := by
    rw [check_single_proposal,
      validMsg_proposal_of_valid reDnm gpsd ctx initialDeposit hmin (fun c hc => (hdep.1 c hc).1),
      hbelow]
    rfl
  refine ⟨_, calc_of_valid reDnm _ hmin, hcheck, ?_⟩
  intro tx next hctx htx
  exact anteHandle_rejects reDnm gpsd ctx tx next _ hctx (by rw [htx]; exact hcheck)

/-- C3: for a well-formed minimum deposit and a proposal submission whose attached
deposit has valid denominations, if for every coin of the minimum deposit the attached
amount of its denomination is at least 20% of the published amount, then the check of
the transaction made of that message returns no error, and in admission context
`AnteHandle` hands over to the next handler. -/
theorem sufficient_deposit_passes (reDnm : String → Bool) (gpsd : GovPreventSpamDecorator)
    (ctx : Context) (initialDeposit : Coins)
    (hmin : Coins.IsValid reDnm (gpsd.govKeeper.GetDepositParams ctx).MinDeposit)
    (hd : ∀ c ∈ initialDeposit, reDnm c.Denom = true)
    (hge : ∀ m ∈ (gpsd.govKeeper.GetDepositParams ctx).MinDeposit,
      m.Amount ≤ 5 * amountIn initialDeposit m.Denom) :
    checkSpamSubmitProposalMsg reDnm gpsd ctx [.MsgSubmitProposal initialDeposit] = .ok none
      ∧ ∀ (tx : Tx) (next : AnteHandler), ctx.IsCheckTx = true →
          tx.GetMsgs = [.MsgSubmitProposal initialDeposit] →
          gpsd.AnteHandle reDnm ctx tx false next = next ctx tx false := by
  have hbelow : belowMinimum initialDeposit
      (computedMinimum (gpsd.govKeeper.GetDepositParams ctx).MinDeposit) = false := by
    cases hM : computedMinimum (gpsd.govKeeper.GetDepositParams ctx).MinDeposit with
    | nil => simp [belowMinimum]
    | cons x xs =>
      rw [← hM]
      have hx : x ∈ computedMinimum (gpsd.govKeeper.GetDepositParams ctx).MinDeposit := by
        rw [hM]
        exact List.mem_cons_self _ _
      obtain ⟨m, hm, _, hz⟩ := (mem_computedMinimum _ x).mp hx
      have hpos := (hmin.1 m hm).2.1
      have hb := miniumInitialCoin_bounds m.Amount (le_of_lt hpos)
      have hformula := chopPrecisionAndRound_rate m.Amount (le_of_lt hpos)
      have hcover : miniumInitialCoin m.Amount ≤ amountIn initialDeposit m.Denom := by
        have := hge m hm
        omega
      have hnz : amountIn initialDeposit m.Denom ≠ 0 := by omega
      obtain ⟨c, hc, hcd, hca⟩ := amountIn_mem_of_ne_zero initialDeposit m.Denom hnz
      apply belowMinimum_false_of_covered initialDeposit _ c hc
      rw [hcd, amountIn_computedMinimum _ hmin.2 m hm, hca]
      exact hcover
  have hcheck : checkSpamSubmitProposalMsg reDnm gpsd ctx [.MsgSubmitProposal initialDeposit]
      = .ok none := by
    rw [check_single_proposal, validMsg_proposal_of_valid reDnm gpsd ctx initialDeposit hmin hd,
      hbelow]
    rfl
  refine ⟨hcheck, ?_⟩
  intro tx next hctx htx
  exact anteHandle_passes reDnm gpsd ctx tx next hctx (by rw [htx]; exact hcheck)

/-- Witness of the amended C2: against a minimum of 50 "atom" and 1000 "stake", a
deposit of 199 "stake" alone is below the rounded floors 10 "atom" and 200 "stake". -/
theorem insufficient_deposit_rejected_witness :
    Coins.IsValid DefaultCoinDenomRegex
        (sampleDecorator.govKeeper.GetDepositParams twoDenomContext).MinDeposit
      ∧ (sampleDecorator.govKeeper.GetDepositParams twoDenomContext).MinDeposit ≠ []
      ∧ Coins.IsValid DefaultCoinDenomRegex [⟨"stake", 199⟩]
      ∧ (∀ c ∈ [Coin.mk "stake" 199],
          ∃ m ∈ (sampleDecorator.govKeeper.GetDepositParams twoDenomContext).MinDeposit,
            m.Denom = c.Denom)
      ∧ (∀ m ∈ (sampleDecorator.govKeeper.GetDepositParams twoDenomContext).MinDeposit,
          amountIn [⟨"stake", 199⟩] m.Denom < miniumInitialCoin m.Amount)
      ∧ ∃ miniumInitialDeposit : Coins,
          calcMiniumInitialDeposit DefaultCoinDenomRegex
              (sampleDecorator.govKeeper.GetDepositParams twoDenomContext).MinDeposit
            = .ok miniumInitialDeposit
          ∧ checkSpamSubmitProposalMsg DefaultCoinDenomRegex sampleDecorator twoDenomContext
              [.MsgSubmitProposal [⟨"stake", 199⟩]]
            = .ok (some (.wrapf ErrInsufficientFunds "not enough initial deposit. required: %v"
                [miniumInitialDeposit]))
          ∧ ∀ (tx : Tx) (next : AnteHandler), twoDenomContext.IsCheckTx = true →
              tx.GetMsgs = [.MsgSubmitProposal [⟨"stake", 199⟩]] →
              sampleDecorator.AnteHandle DefaultCoinDenomRegex twoDenomContext tx false next
                = .ok (twoDenomContext, some (.wrapf ErrInsufficientFunds
                    "not enough initial deposit. required: %v" [miniumInitialDeposit])) :=
  have h1 : Coins.IsValid DefaultCoinDenomRegex
      (sampleDecorator.govKeeper.GetDepositParams twoDenomContext).MinDeposit := by
    unfold Coins.IsValid SortedByDenom
    decide
  have h2 : (sampleDecorator.govKeeper.GetDepositParams twoDenomContext).MinDeposit ≠ [] := by
    decide
  have h3 : Coins.IsValid DefaultCoinDenomRegex [⟨"stake", 199⟩] := by
    unfold Coins.IsValid SortedByDenom
    decide
  have h4 : ∀ c ∈ [Coin.mk "stake" 199],
      ∃ m ∈ (sampleDecorator.govKeeper.GetDepositParams twoDenomContext).MinDeposit,
        m.Denom = c.Denom := by
    decide
  have h5 : ∀ m ∈ (sampleDecorator.govKeeper.GetDepositParams twoDenomContext).MinDeposit,
      amountIn [⟨"stake", 199⟩] m.Denom < miniumInitialCoin m.Amount := by
    decide
  ⟨h1, h2, h3, h4, h5,
    insufficient_deposit_rejected DefaultCoinDenomRegex sampleDecorator twoDenomContext
      [⟨"stake", 199⟩] h1 h2 h3 h4 h5⟩

/-- Witness of C3: against a minimum of 50 "atom" and 1000 "stake", a deposit of
10 "atom" and 200 "stake" passes. -/
theorem sufficient_deposit_passes_witness :
    Coins.IsValid DefaultCoinDenomRegex
        (sampleDecorator.govKeeper.GetDepositParams twoDenomContext).MinDeposit
      ∧ (∀ c ∈ [Coin.mk "atom" 10, Coin.mk "stake" 200], DefaultCoinDenomRegex c.Denom = true)
      ∧ (∀ m ∈ (sampleDecorator.govKeeper.GetDepositParams twoDenomContext).MinDeposit,
          m.Amount ≤ 5 * amountIn [⟨"atom", 10⟩, ⟨"stake", 200⟩] m.Denom)
      ∧ checkSpamSubmitProposalMsg DefaultCoinDenomRegex sampleDecorator twoDenomContext
          [.MsgSubmitProposal [⟨"atom", 10⟩, ⟨"stake", 200⟩]] = .ok none :=
  have h1 : Coins.IsValid DefaultCoinDenomRegex
      (sampleDecorator.govKeeper.GetDepositParams twoDenomContext).MinDeposit := by
    unfold Coins.IsValid SortedByDenom
    decide
  have h2 : ∀ c ∈ [Coin.mk "atom" 10, Coin.mk "stake" 200],
      DefaultCoinDenomRegex c.Denom = true := by
    decide
  have h3 : ∀ m ∈ (sampleDecorator.govKeeper.GetDepositParams twoDenomContext).MinDeposit,
      m.Amount ≤ 5 * amountIn [⟨"atom", 10⟩, ⟨"stake", 200⟩] m.Denom := by
    decide
  ⟨h1, h2, h3,
    (sufficient_deposit_passes DefaultCoinDenomRegex sampleDecorator twoDenomContext
      [⟨"atom", 10⟩, ⟨"stake", 200⟩] h1 h2 h3).1⟩

/-- C4: with a published minimum deposit of exactly 1000 "stake", a proposal submission
with an initial deposit of 200 "stake" passes the check and one with 199 "stake" is
rejected with the insufficient-funds error, which carries 200 "stake"; in admission
context `AnteHandle` hands the first to the next handler and returns the error for the
second. -/
theorem boundary_at_one_fifth (reDnm : String → Bool) (gpsd : GovPreventSpamDecorator)
    (ctx : Context) (hre : reDnm "stake" = true)
    (hmin : (gpsd.govKeeper.GetDepositParams ctx).MinDeposit = [⟨"stake", 1000⟩]) :
    checkSpamSubmitProposalMsg reDnm gpsd ctx [.MsgSubmitProposal [⟨"stake", 200⟩]] = .ok none
      ∧ checkSpamSubmitProposalMsg reDnm gpsd ctx [.MsgSubmitProposal [⟨"stake", 199⟩]]
        = .ok (some (.wrapf ErrInsufficientFunds "not enough initial deposit. required: %v"
            [[⟨"stake", 200⟩]]))
      ∧ ∀ (tx : Tx) (next : AnteHandler), ctx.IsCheckTx = true →
          (tx.GetMsgs = [.MsgSubmitProposal [⟨"stake", 200⟩]] →
            gpsd.AnteHandle reDnm ctx tx false next = next ctx tx false)
          ∧ (tx.GetMsgs = [.MsgSubmitProposal [⟨"stake", 199⟩]] →
            gpsd.AnteHandle reDnm ctx tx false next
              = .ok (ctx, some (.wrapf ErrInsufficientFunds
                  "not enough initial deposit. required: %v" [[⟨"stake", 200⟩]]))) := by
  have hvalid : Coins.IsValid reDnm (gpsd.govKeeper.GetDepositParams ctx).MinDeposit := by
    rw [hmin]
    refine ⟨?_, ?_⟩
    · intro c hc
      rw [List.mem_singleton] at hc
      subst hc
      exact ⟨hre, by decide, by decide⟩
    · unfold SortedByDenom
      decide
  have hM : computedMinimum (gpsd.govKeeper.GetDepositParams ctx).MinDeposit
      = [⟨"stake", 200⟩] := by
    rw [hmin]
    decide
  have hdenoms : ∀ n : Int, ∀ c ∈ [Coin.mk "stake" n], reDnm c.Denom = true := by
    intro n c hc
    rw [List.mem_singleton] at hc
    subst hc
    exact hre
  have h200 : checkSpamSubmitProposalMsg reDnm gpsd ctx [.MsgSubmitProposal [⟨"stake", 200⟩]]
      = .ok none := by
    rw [check_single_proposal, validMsg_proposal_of_valid reDnm gpsd ctx _ hvalid (hdenoms 200),
      hM]
    rfl
  have h199 : checkSpamSubmitProposalMsg reDnm gpsd ctx [.MsgSubmitProposal [⟨"stake", 199⟩]]
      = .ok (some (.wrapf ErrInsufficientFunds "not enough initial deposit. required: %v"
          [[⟨"stake", 200⟩]])) := by
    rw [check_single_proposal, validMsg_proposal_of_valid reDnm gpsd ctx _ hvalid (hdenoms 199),
      hM]
    rfl
  refine ⟨h200, h199, ?_⟩
  intro tx next hctx
  refine ⟨?_, ?_⟩
  · intro htx
    exact anteHandle_passes reDnm gpsd ctx tx next hctx (by rw [htx]; exact h200)
  · intro htx
    exact anteHandle_rejects reDnm gpsd ctx tx next _ hctx (by rw [htx]; exact h199)

/-- Witness of C4: the sample decorator on the context that publishes 1000 "stake". -/
theorem boundary_at_one_fifth_witness :
    DefaultCoinDenomRegex "stake" = true
      ∧ (sampleDecorator.govKeeper.GetDepositParams stakeContext).MinDeposit = [⟨"stake", 1000⟩]
      ∧ checkSpamSubmitProposalMsg DefaultCoinDenomRegex sampleDecorator stakeContext
          [.MsgSubmitProposal [⟨"stake", 200⟩]] = .ok none
      ∧ checkSpamSubmitProposalMsg DefaultCoinDenomRegex sampleDecorator stakeContext
          [.MsgSubmitProposal [⟨"stake", 199⟩]]
        = .ok (some (.wrapf ErrInsufficientFunds "not enough initial deposit. required: %v"
            [[⟨"stake", 200⟩]])) :=
  ⟨by decide, rfl,
    (boundary_at_one_fifth DefaultCoinDenomRegex sampleDecorator stakeContext (by decide) rfl).1,
    (boundary_at_one_fifth DefaultCoinDenomRegex sampleDecorator stakeContext (by decide) rfl).2.1⟩

/-- C5: for a well-formed minimum deposit and an attached deposit with valid
denominations, let `M` be the value of `calcMiniumInitialDeposit`. If some coin of the
attached deposit has an amount at least `M`'s amount of its denomination, the message
passes, whatever the other coins are. And a denomination of `M` absent from the
attached deposit counts as amount zero: for an attached deposit sorted by denomination
with no denomination outside `M`, the message is rejected exactly when `M` is non-empty
and every coin of `M` exceeds the attached amount of its denomination, zero when
absent. -/
theorem one_sufficient_denomination_passes (reDnm : String → Bool)
    (gpsd : GovPreventSpamDecorator) (ctx : Context) (initialDeposit : Coins)
    (hmin : Coins.IsValid reDnm (gpsd.govKeeper.GetDepositParams ctx).MinDeposit)
    (hd : ∀ c ∈ initialDeposit, reDnm c.Denom = true) :
    ∃ miniumInitialDeposit : Coins,
      calcMiniumInitialDeposit reDnm (gpsd.govKeeper.GetDepositParams ctx).MinDeposit
          = .ok miniumInitialDeposit
        ∧ ((∃ c ∈ initialDeposit, amountIn miniumInitialDeposit c.Denom ≤ c.Amount) →
            checkSpamSubmitProposalMsg reDnm gpsd ctx [.MsgSubmitProposal initialDeposit]
              = .ok none)
        ∧ (SortedByDenom initialDeposit →
            (∀ c ∈ initialDeposit, ∃ m ∈ miniumInitialDeposit, m.Denom = c.Denom) →
            (checkSpamSubmitProposalMsg reDnm gpsd ctx [.MsgSubmitProposal initialDeposit]
                = .ok (some (.wrapf ErrInsufficientFunds
                    "not enough initial deposit. required: %v" [miniumInitialDeposit]))
              ↔ miniumInitialDeposit ≠ []
                ∧ ∀ m ∈ miniumInitialDeposit, amountIn initialDeposit m.Denom < m.Amount)) := by
  refine ⟨computedMinimum (gpsd.govKeeper.GetDepositParams ctx).MinDeposit,
    calc_of_valid reDnm _ hmin, ?_, ?_⟩
  · rintro ⟨c, hc, hge⟩
    rw [check_single_proposal, validMsg_proposal_of_valid reDnm gpsd ctx initialDeposit hmin hd,
      belowMinimum_false_of_covered initialDeposit _ c hc hge]
    rfl
  · intro hs hsub
    rw [check_single_proposal, validMsg_proposal_of_valid reDnm gpsd ctx initialDeposit hmin hd,
      ← belowMinimum_iff initialDeposit _ hs (computedMinimum_sorted _ hmin.2)
        (computedMinimum_pos reDnm _ hmin) hsub]
    cases belowMinimum initialDeposit
      (computedMinimum (gpsd.govKeeper.GetDepositParams ctx).MinDeposit)
    · simp
    · simp [insufficientDepositError]

/-- Witness of C5: against a minimum of 50 "atom" and 1000 "stake", whose floors are
10 "atom" and 200 "stake", a deposit of 10 "atom" and 1 "stake" passes on its "atom"
coin. -/
theorem one_sufficient_denomination_passes_witness :
    Coins.IsValid DefaultCoinDenomRegex
        (sampleDecorator.govKeeper.GetDepositParams twoDenomContext).MinDeposit
      ∧ (∀ c ∈ [Coin.mk "atom" 10, Coin.mk "stake" 1], DefaultCoinDenomRegex c.Denom = true)
      ∧ checkSpamSubmitProposalMsg DefaultCoinDenomRegex sampleDecorator twoDenomContext
          [.MsgSubmitProposal [⟨"atom", 10⟩, ⟨"stake", 1⟩]] = .ok none
      ∧ checkSpamSubmitProposalMsg DefaultCoinDenomRegex sampleDecorator twoDenomContext
          [.MsgSubmitProposal [⟨"stake", 199⟩]]
        = .ok (some (.wrapf ErrInsufficientFunds "not enough initial deposit. required: %v"
            [[⟨"atom", 10⟩, ⟨"stake", 200⟩]])) :=
  have h1 : Coins.IsValid DefaultCoinDenomRegex
      (sampleDecorator.govKeeper.GetDepositParams twoDenomContext).MinDeposit := by
    unfold Coins.IsValid SortedByDenom
    decide
  have h2 : ∀ c ∈ [Coin.mk "atom" 10, Coin.mk "stake" 1],
      DefaultCoinDenomRegex c.Denom = true := by
    decide
  have h3 : checkSpamSubmitProposalMsg DefaultCoinDenomRegex sampleDecorator twoDenomContext
      [.MsgSubmitProposal [⟨"atom", 10⟩, ⟨"stake", 1⟩]] = .ok none := by
    obtain ⟨M, hM, hpass, _⟩ := one_sufficient_denomination_passes DefaultCoinDenomRegex
      sampleDecorator twoDenomContext [⟨"atom", 10⟩, ⟨"stake", 1⟩] h1 h2
    have hval : M = [⟨"atom", 10⟩, ⟨"stake", 200⟩] := by
      rw [show calcMiniumInitialDeposit DefaultCoinDenomRegex
          (sampleDecorator.govKeeper.GetDepositParams twoDenomContext).MinDeposit
        = .ok [⟨"atom", 10⟩, ⟨"stake", 200⟩] from rfl] at hM
      exact (Except.ok.inj hM).symm
    subst hval
    exact hpass ⟨⟨"atom", 10⟩, by decide, by decide⟩
  ⟨h1, h2, h3, rfl⟩

/-! ## The computed minimum -/

/-- Counterexample to C11: the minimum deposit of 2 "atom" and 1000 "stake" is well
formed, and `calcMiniumInitialDeposit` returns 200 "stake" alone: 20% of 2 rounds to
zero and the zero coin is dropped, so the result has no coin of denomination "atom". -/
theorem calc_drops_zero_floor :
    Coins.IsValid DefaultCoinDenomRegex [⟨"atom", 2⟩, ⟨"stake", 1000⟩]
      ∧ calcMiniumInitialDeposit DefaultCoinDenomRegex [⟨"atom", 2⟩, ⟨"stake", 1000⟩]
        = .ok [⟨"stake", 200⟩]
      ∧ [Coin.mk "stake" 200].map Coin.Denom
        ≠ [Coin.mk "atom" 2, Coin.mk "stake" 1000].map Coin.Denom := by
  refine ⟨?_, rfl, by decide⟩
  unfold Coins.IsValid SortedByDenom
  decide

/-- C11, amended: for a well-formed minimum deposit `calcMiniumInitialDeposit` returns
a coin set, sorted by denomination and hence with at most one coin per denomination,
whose coins are exactly the coins `(denom, (amount + 2) / 5)` for the coins
`(denom, amount)` of the source with `amount ≥ 3`: each amount is the source amount
times 20% rounded to the nearest integer, and a denomination whose rounded amount is
zero (source amount 1 or 2) has no coin in the result. When every source amount is at
least 3, the denominations of the result are those of the source, in the same order. -/
theorem calc_one_coin_per_nonzero_floor (reDnm : String → Bool) (minDeposit : Coins)
    (h : Coins.IsValid reDnm minDeposit) :
    ∃ miniumInitialDeposit : Coins,
      calcMiniumInitialDeposit reDnm minDeposit = .ok miniumInitialDeposit
        ∧ SortedByDenom miniumInitialDeposit
        ∧ (∀ m : Coin, m ∈ miniumInitialDeposit
            ↔ ∃ c ∈ minDeposit, 3 ≤ c.Amount ∧ m = ⟨c.Denom, (c.Amount + 2) / 5⟩)
        ∧ (∀ c ∈ minDeposit, |5 * ((c.Amount + 2) / 5) - c.Amount| ≤ 2)
        ∧ (∀ c ∈ minDeposit, c.Amount ≤ 2 → ∀ m ∈ miniumInitialDeposit, m.Denom ≠ c.Denom)
        ∧ ((∀ c ∈ minDeposit, 3 ≤ c.Amount) →
            miniumInitialDeposit.map Coin.Denom = minDeposit.map Coin.Denom) := by
  have hfloor : ∀ c ∈ minDeposit, miniumInitialCoin c.Amount = (c.Amount + 2) / 5 :=
    fun c hc => chopPrecisionAndRound_rate c.Amount (le_of_lt (h.1 c hc).2.1)
  have hmem : ∀ m : Coin, m ∈ computedMinimum minDeposit
      ↔ ∃ c ∈ minDeposit, 3 ≤ c.Amount ∧ m = ⟨c.Denom, (c.Amount + 2) / 5⟩ := by
    intro m
    rw [mem_computedMinimum]
    constructor
    · rintro ⟨c, hc, rfl, hz⟩
      rw [hfloor c hc] at hz
      have hpos := (h.1 c hc).2.1
      refine ⟨c, hc, by omega, ?_⟩
      simp only [miniumInitialCoinOf, hfloor c hc]
    · rintro ⟨c, hc, h3, rfl⟩
      refine ⟨c, hc, ?_, ?_⟩
      · simp only [miniumInitialCoinOf, hfloor c hc]
      · rw [hfloor c hc]
        omega
  refine ⟨computedMinimum minDeposit, calc_of_valid reDnm minDeposit h,
    computedMinimum_sorted minDeposit h.2, hmem, ?_, ?_, ?_⟩
  · intro c _
    rw [abs_le]
    constructor <;> omega
  · intro c hc h2 m hm hd
    obtain ⟨c', hc', h3, rfl⟩ := (hmem m).mp hm
    have h1 := amountIn_of_mem_sorted minDeposit h.2 c hc
    have h2' := amountIn_of_mem_sorted minDeposit h.2 c' hc'
    have hd' : c'.Denom = c.Denom := hd
    rw [hd', h1] at h2'
    omega
  · intro hall
    have hid : computedMinimum minDeposit = minDeposit.map miniumInitialCoinOf := by
      unfold computedMinimum removeZeroCoins
      rw [List.filter_eq_self]
      intro m hm
      obtain ⟨c, hc, rfl⟩ := List.mem_map.mp hm
      have := hall c hc
      have hf := hfloor c hc
      simp only [Coin.IsZero, miniumInitialCoinOf, hf, Bool.not_eq_true', decide_eq_false_iff_not]
      omega
    rw [hid, List.map_map]
    rfl

/-- Witness of the amended C11: the minimum deposit of 50 "atom" and 1000 "stake". -/
theorem calc_one_coin_per_nonzero_floor_witness :
    Coins.IsValid DefaultCoinDenomRegex [⟨"atom", 50⟩, ⟨"stake", 1000⟩]
      ∧ calcMiniumInitialDeposit DefaultCoinDenomRegex [⟨"atom", 50⟩, ⟨"stake", 1000⟩]
        = .ok [⟨"atom", 10⟩, ⟨"stake", 200⟩]
      ∧ ∃ miniumInitialDeposit : Coins,
          calcMiniumInitialDeposit DefaultCoinDenomRegex [⟨"atom", 50⟩, ⟨"stake", 1000⟩]
            = .ok miniumInitialDeposit
          ∧ SortedByDenom miniumInitialDeposit
          ∧ (∀ m : Coin, m ∈ miniumInitialDeposit
              ↔ ∃ c ∈ [Coin.mk "atom" 50, Coin.mk "stake" 1000],
                  3 ≤ c.Amount ∧ m = ⟨c.Denom, (c.Amount + 2) / 5⟩)
          ∧ (∀ c ∈ [Coin.mk "atom" 50, Coin.mk "stake" 1000],
              |5 * ((c.Amount + 2) / 5) - c.Amount| ≤ 2)
          ∧ (∀ c ∈ [Coin.mk "atom" 50, Coin.mk "stake" 1000], c.Amount ≤ 2 →
              ∀ m ∈ miniumInitialDeposit, m.Denom ≠ c.Denom)
          ∧ ((∀ c ∈ [Coin.mk "atom" 50, Coin.mk "stake" 1000], 3 ≤ c.Amount) →
              miniumInitialDeposit.map Coin.Denom
                = [Coin.mk "atom" 50, Coin.mk "stake" 1000].map Coin.Denom) :=
  have h : Coins.IsValid DefaultCoinDenomRegex [⟨"atom", 50⟩, ⟨"stake", 1000⟩] := by
    unfold Coins.IsValid SortedByDenom
    decide
  ⟨h, rfl, calc_one_coin_per_nonzero_floor DefaultCoinDenomRegex _ h⟩

/-- C14: for every non-negative amount `a` of `sdk.Int`, neither
`MiniumInitialDepositRate.MulInt(a)` nor the `RoundInt()` of the product panics, and the
result is `(a + 2) / 5` rounded down, the unique integer nearest to `a / 5`. The
product never has a fractional part of exactly one half, so rounding half to even, as
the code does, and rounding half away from zero agree on it. The amount computed for a
coin depends on `a` alone, not on the denomination or its validator. -/
theorem rounded_rate_is_nearest (a : Int) (h0 : 0 ≤ a)
    (hrange : bitLenExceeds a maxBitLen = false) :
    MiniumInitialDepositRate.MulInt a = .ok ⟨MiniumInitialDepositRate.i * a⟩
      ∧ (Dec.mk (MiniumInitialDepositRate.i * a)).RoundInt = .ok ((a + 2) / 5)
      ∧ (∀ z : Int, |5 * z - a| ≤ |5 * ((a + 2) / 5) - a| → z = (a + 2) / 5)
      ∧ (MiniumInitialDepositRate.i * a).tmod precisionReuse ≠ fivePrecision
      ∧ chopPrecisionAndRound (MiniumInitialDepositRate.i * a)
        = roundHalfAwayFromZero (MiniumInitialDepositRate.i * a)
      ∧ (∀ (reDnm : String → Bool) (denom : String), reDnm denom = true →
          calcMiniumInitialDeposit reDnm [⟨denom, a⟩]
            = .ok (removeZeroCoins [⟨denom, (a + 2) / 5⟩])) := by
  have h1 := int_range_of_bitLen a h0 hrange
  have hform := chopPrecisionAndRound_rate a h0
  have hm : (200000000000000000 * a).tmod 1000000000000000000
      = (200000000000000000 * a) % 1000000000000000000 :=
    Int.tmod_eq_emod (by omega) (by decide)
  have hd : (200000000000000000 * a).tdiv 1000000000000000000
      = (200000000000000000 * a) / 1000000000000000000 :=
    Int.tdiv_eq_ediv (by omega) (by decide)
  have hp : precisionReuse = 1000000000000000000 := by decide
  have hf : fivePrecision = 500000000000000000 := by decide
  have hnn : ¬ (200000000000000000 * a < 0) := by omega
  refine ⟨mulInt_rate a h0 h1, ?_, ?_, ?_, ?_, ?_⟩
  · rw [roundInt_rate a h0 h1, hform]
  · intro z hz
    rcases abs_cases (5 * z - a) with ⟨e1, _⟩ | ⟨e1, _⟩ <;>
      rcases abs_cases (5 * ((a + 2) / 5) - a) with ⟨e2, _⟩ | ⟨e2, _⟩ <;>
      rw [e1, e2] at hz <;> omega
  · rw [rate_value, hp, hf, hm]
    omega
  · have hc : chopPrecisionAndRound (MiniumInitialDepositRate.i * a) = (a + 2) / 5 := hform
    rw [hc]
    simp only [roundHalfAwayFromZero, roundHalfAwayFromZeroNonNeg, rate_value, if_neg hnn, hp,
      hf, hd, hm]
    split_ifs <;> omega
  · intro reDnm denom hden
    unfold calcMiniumInitialDeposit
    rw [calc_loop_valid reDnm [⟨denom, a⟩] []]
    · simp only [List.nil_append, List.map_cons, List.map_nil, miniumInitialCoinOf, hform]
    · intro c hc
      rw [List.mem_singleton] at hc
      subst hc
      exact ⟨hden, h0, h1⟩
    · unfold SortedByDenom
      exact List.pairwise_singleton _ _
    · intro x hx
      cases hx
    · intro x hx
      cases hx

/-- Witness of C14: the amount 1003, whose fifth is 200.6. -/
theorem rounded_rate_is_nearest_witness :
    (0 : Int) ≤ 1003 ∧ bitLenExceeds 1003 maxBitLen = false
      ∧ MiniumInitialDepositRate.MulInt 1003 = .ok ⟨200600000000000000000⟩
      ∧ (Dec.mk 200600000000000000000).RoundInt = .ok 201
      ∧ (Dec.mk (MiniumInitialDepositRate.i * 1003)).RoundInt = .ok ((1003 + 2) / 5) :=
  ⟨by decide, by decide, rfl, rfl,
    (rounded_rate_is_nearest 1003 (by decide) (by decide)).2.1⟩

/-! ## Errors, frame and nesting -/

theorem andThen_eq_some (a b : Except Panic (Option Error)) (e : Error)
    (h : andThen a b = .ok (some e)) :
    a = .ok (some e) ∨ (a = .ok none ∧ b = .ok (some e)) := by
  rcases a with p | _ | e'
  · cases h
  · exact Or.inr ⟨rfl, h⟩
  · exact Or.inl h

theorem validMsg_error (reDnm : String → Bool) (gpsd : GovPreventSpamDecorator) (ctx : Context)
    (m : Msg) (e : Error)
    (h : checkSpamSubmitProposalMsg.validMsg reDnm gpsd ctx m = .ok (some e)) :
    ∃ initialDeposit miniumInitialDeposit,
      m = .MsgSubmitProposal initialDeposit
        ∧ calcMiniumInitialDeposit reDnm (gpsd.govKeeper.GetDepositParams ctx).MinDeposit
          = .ok miniumInitialDeposit
        ∧ Coins.IsAllLT reDnm initialDeposit miniumInitialDeposit = .ok true
        ∧ e = insufficientDepositError miniumInitialDeposit := by
  cases m with
  | MsgSubmitProposal D =>
    simp only [checkSpamSubmitProposalMsg.validMsg] at h
    cases hc : calcMiniumInitialDeposit reDnm (gpsd.govKeeper.GetDepositParams ctx).MinDeposit with
    | error p => rw [hc] at h; cases h
    | ok M =>
      rw [hc] at h
      simp only at h
      cases hl : Coins.IsAllLT reDnm D M with
      | error p => rw [hl] at h; cases h
      | ok b =>
        rw [hl] at h
        cases b with
        | false => cases h
        | true =>
          simp only [Except.ok.injEq, Option.some.injEq] at h
          exact ⟨D, M, rfl, rfl, hl, h.symm⟩
  | MsgExec _ => cases h
  | other _ => cases h

theorem authzOne_error (reDnm : String → Bool) (gpsd : GovPreventSpamDecorator) (ctx : Context)
    (v : Any) (e : Error) (h : authzOne reDnm gpsd ctx v = .ok (some e)) :
    (e = cannotUnmarshalError ∧ ∃ err, gpsd.cdc.UnpackAny v = .error err)
      ∨ ∃ m, gpsd.cdc.UnpackAny v = .ok m
          ∧ checkSpamSubmitProposalMsg.validMsg reDnm gpsd ctx m = .ok (some e) := by
  unfold authzOne at h
  cases hu : gpsd.cdc.UnpackAny v with
  | error err =>
    rw [hu] at h
    simp only [Except.ok.injEq, Option.some.injEq] at h
    exact Or.inl ⟨h.symm, err, rfl⟩
  | ok m =>
    rw [hu] at h
    exact Or.inr ⟨m, rfl, h⟩

theorem validAuthz_error (reDnm : String → Bool) (gpsd : GovPreventSpamDecorator)
    (ctx : Context) (e : Error) :
    ∀ inner : List Any,
      checkSpamSubmitProposalMsg.validAuthz reDnm gpsd ctx inner = .ok (some e) →
      ∃ v ∈ inner, authzOne reDnm gpsd ctx v = .ok (some e) := by
  intro inner
  induction inner with
  | nil => intro h; cases h
  | cons v rest ih =>
    intro h
    rw [validAuthz_cons] at h
    rcases andThen_eq_some _ _ e h with h1 | ⟨_, h2⟩
    · exact ⟨v, List.mem_cons_self _ _, h1⟩
    · obtain ⟨w, hw, hw'⟩ := ih h2
      exact ⟨w, List.mem_cons_of_mem _ hw, hw'⟩

theorem check_error (reDnm : String → Bool) (gpsd : GovPreventSpamDecorator)
    (ctx : Context) (e : Error) :
    ∀ msgs : List Msg,
      checkSpamSubmitProposalMsg reDnm gpsd ctx msgs = .ok (some e) →
      ∃ m ∈ msgs, checkOne reDnm gpsd ctx m = .ok (some e) := by
  intro msgs
  induction msgs with
  | nil => intro h; cases h
  | cons m rest ih =>
    intro h
    rw [check_cons] at h
    rcases andThen_eq_some _ _ e h with h1 | ⟨_, h2⟩
    · exact ⟨m, List.mem_cons_self _ _, h1⟩
    · obtain ⟨w, hw, hw'⟩ := ih h2
      exact ⟨w, List.mem_cons_of_mem _ hw, hw'⟩

/-- Every error of the check is the unauthorized error of an undecodable inner message
or the insufficient-funds error carrying the value of `calcMiniumInitialDeposit`. -/
theorem check_error_kinds (reDnm : String → Bool) (gpsd : GovPreventSpamDecorator)
    (ctx : Context) (msgs : List Msg) (e : Error)
    (h : checkSpamSubmitProposalMsg reDnm gpsd ctx msgs = .ok (some e)) :
    e = cannotUnmarshalError
      ∨ ∃ miniumInitialDeposit,
          calcMiniumInitialDeposit reDnm (gpsd.govKeeper.GetDepositParams ctx).MinDeposit
            = .ok miniumInitialDeposit
          ∧ e = insufficientDepositError miniumInitialDeposit := by
  obtain ⟨m, _, hm⟩ := check_error reDnm gpsd ctx e msgs h
  cases m with
  | MsgExec inner =>
    simp only [checkOne] at hm
    obtain ⟨v, _, hv⟩ := validAuthz_error reDnm gpsd ctx e inner hm
    rcases authzOne_error reDnm gpsd ctx v e hv with ⟨he, _⟩ | ⟨m', _, hm'⟩
    · exact Or.inl he
    · obtain ⟨_, M, _, hM, _, heq⟩ := validMsg_error reDnm gpsd ctx m' e hm'
      exact Or.inr ⟨M, hM, heq⟩
  | MsgSubmitProposal D =>
    have hm' : checkSpamSubmitProposalMsg.validMsg reDnm gpsd ctx (.MsgSubmitProposal D)
        = .ok (some e) := hm
    obtain ⟨_, M, _, hM, _, heq⟩ := validMsg_error reDnm gpsd ctx _ e hm'
    exact Or.inr ⟨M, hM, heq⟩
  | other a =>
    have hm' : checkSpamSubmitProposalMsg.validMsg reDnm gpsd ctx (.other a)
        = .ok (some e) := hm
    obtain ⟨_, M, _, hM, _, heq⟩ := validMsg_error reDnm gpsd ctx _ e hm'
    exact Or.inr ⟨M, hM, heq⟩

/-- C12: whenever the check of a list of messages returns an error that is an
insufficient-funds error, raised by a direct proposal or by one decoded from an
envelope, that error carries exactly the value of `calcMiniumInitialDeposit` on the
current minimum deposit; so any two such rejections under one context carry the same
minimum, whatever the attached deposits are. -/
theorem rejection_carries_computed_minimum (reDnm : String → Bool)
    (gpsd : GovPreventSpamDecorator) (ctx : Context) (msgs : List Msg) (e : Error)
    (h : checkSpamSubmitProposalMsg reDnm gpsd ctx msgs = .ok (some e))
    (hkind : e.Is ErrInsufficientFunds = true) :
    ∃ miniumInitialDeposit : Coins,
      calcMiniumInitialDeposit reDnm (gpsd.govKeeper.GetDepositParams ctx).MinDeposit
          = .ok miniumInitialDeposit
        ∧ e = .wrapf ErrInsufficientFunds "not enough initial deposit. required: %v"
            [miniumInitialDeposit]
        ∧ ∀ (msgs' : List Msg) (e' : Error),
            checkSpamSubmitProposalMsg reDnm gpsd ctx msgs' = .ok (some e') →
            e'.Is ErrInsufficientFunds = true → e' = e := by
  have hnot : cannotUnmarshalError.Is ErrInsufficientFunds = false := by decide
  rcases check_error_kinds reDnm gpsd ctx msgs e h with he | ⟨M, hM, he⟩
  · rw [he, hnot] at hkind
    cases hkind
  · refine ⟨M, hM, he, ?_⟩
    intro msgs' e' h' hkind'
    rcases check_error_kinds reDnm gpsd ctx msgs' e' h' with he' | ⟨M', hM', he'⟩
    · rw [he', hnot] at hkind'
      cases hkind'
    · rw [hM] at hM'
      rw [he, he', Except.ok.inj hM']

/-- Witness of C12: against a minimum of 1000 "stake", a proposal with 199 "stake"
inside an envelope is rejected with the error that carries 200 "stake". -/
theorem rejection_carries_computed_minimum_witness :
    checkSpamSubmitProposalMsg DefaultCoinDenomRegex sampleDecorator stakeContext
        [.other packedSend, .MsgExec [packedProposal [199]]]
      = .ok (some (insufficientDepositError [⟨"stake", 200⟩]))
      ∧ (insufficientDepositError [⟨"stake", 200⟩]).Is ErrInsufficientFunds = true
      ∧ ∃ miniumInitialDeposit : Coins,
          calcMiniumInitialDeposit DefaultCoinDenomRegex
              (sampleDecorator.govKeeper.GetDepositParams stakeContext).MinDeposit
            = .ok miniumInitialDeposit
          ∧ insufficientDepositError [⟨"stake", 200⟩]
            = .wrapf ErrInsufficientFunds "not enough initial deposit. required: %v"
                [miniumInitialDeposit]
          ∧ ∀ (msgs' : List Msg) (e' : Error),
              checkSpamSubmitProposalMsg DefaultCoinDenomRegex sampleDecorator stakeContext msgs'
                = .ok (some e') →
              e'.Is ErrInsufficientFunds = true →
              e' = insufficientDepositError [⟨"stake", 200⟩] :=
  ⟨rfl, by decide,
    rejection_carries_computed_minimum DefaultCoinDenomRegex sampleDecorator stakeContext
      [.other packedSend, .MsgExec [packedProposal [199]]]
      (insufficientDepositError [⟨"stake", 200⟩]) rfl (by decide)⟩

/-- C13: in admission context the decorator only decides. When the check returns no
error, `AnteHandle` is exactly the next handler applied to the context, transaction and
flag it received. When the check returns an error, `AnteHandle` returns the received
context with that error whatever the next handler is, so the next handler has no part
in the result; the transaction, its messages and the deposit parameters read through
the returned context are those received. -/
theorem anteHandle_is_a_predicate (reDnm : String → Bool) (gpsd : GovPreventSpamDecorator)
    (ctx : Context) (tx : Tx) (hctx : ctx.IsCheckTx = true) :
    (checkSpamSubmitProposalMsg reDnm gpsd ctx tx.GetMsgs = .ok none →
        ∀ next : AnteHandler, gpsd.AnteHandle reDnm ctx tx false next = next ctx tx false)
      ∧ (∀ err : Error, checkSpamSubmitProposalMsg reDnm gpsd ctx tx.GetMsgs = .ok (some err) →
          ∀ next : AnteHandler,
            gpsd.AnteHandle reDnm ctx tx false next = .ok (ctx, some err)
              ∧ ∀ (newCtx : Context) (e : Option Error),
                  gpsd.AnteHandle reDnm ctx tx false next = .ok (newCtx, e) →
                  newCtx = ctx
                    ∧ gpsd.govKeeper.GetDepositParams newCtx = gpsd.govKeeper.GetDepositParams ctx
                    ∧ e = some err) := by
  refine ⟨?_, ?_⟩
  · intro h next
    exact anteHandle_passes reDnm gpsd ctx tx next hctx h
  · intro err h next
    have hr := anteHandle_rejects reDnm gpsd ctx tx next err hctx h
    refine ⟨hr, ?_⟩
    intro newCtx e hres
    rw [hr] at hres
    simp only [Except.ok.injEq, Prod.mk.injEq] at hres
    obtain ⟨h1, h2⟩ := hres
    subst h1
    exact ⟨rfl, rfl, h2.symm⟩

/-- Witness of C13: in admission context with a minimum of 1000 "stake", a proposal with
200 "stake" reaches the next handler and one with 199 "stake" is returned with the
context unchanged. -/
theorem anteHandle_is_a_predicate_witness :
    stakeContext.IsCheckTx = true
      ∧ sampleDecorator.AnteHandle DefaultCoinDenomRegex stakeContext
          ⟨[.MsgSubmitProposal [⟨"stake", 200⟩]], "memo"⟩ false acceptNext
        = acceptNext stakeContext ⟨[.MsgSubmitProposal [⟨"stake", 200⟩]], "memo"⟩ false
      ∧ sampleDecorator.AnteHandle DefaultCoinDenomRegex stakeContext
          ⟨[.MsgSubmitProposal [⟨"stake", 199⟩]], "memo"⟩ false acceptNext
        = .ok (stakeContext, some (insufficientDepositError [⟨"stake", 200⟩])) :=
  ⟨rfl,
    (anteHandle_is_a_predicate DefaultCoinDenomRegex sampleDecorator stakeContext
      ⟨[.MsgSubmitProposal [⟨"stake", 200⟩]], "memo"⟩ rfl).1 rfl acceptNext,
    ((anteHandle_is_a_predicate DefaultCoinDenomRegex sampleDecorator stakeContext
      ⟨[.MsgSubmitProposal [⟨"stake", 199⟩]], "memo"⟩ rfl).2
        (insufficientDepositError [⟨"stake", 200⟩]) rfl acceptNext).1⟩

theorem validMsg_fails_iff (reDnm : String → Bool) (gpsd : GovPreventSpamDecorator)
    (ctx : Context) (initialDeposit : Coins) :
    (∃ e, checkSpamSubmitProposalMsg.validMsg reDnm gpsd ctx (.MsgSubmitProposal initialDeposit)
        = .ok (some e))
      ↔ depositFails reDnm gpsd ctx initialDeposit := by
  constructor
  · rintro ⟨e, he⟩
    obtain ⟨D, M, hD, hM, hL, _⟩ := validMsg_error reDnm gpsd ctx _ e he
    cases hD
    exact ⟨M, hM, hL⟩
  · rintro ⟨M, hM, hL⟩
    exact ⟨insufficientDepositError M, by
      simp only [checkSpamSubmitProposalMsg.validMsg, hM, hL]
      rfl⟩

theorem validMsg_no_panic (reDnm : String → Bool) (gpsd : GovPreventSpamDecorator)
    (ctx : Context) (m : Msg)
    (hmin : Coins.IsValid reDnm (gpsd.govKeeper.GetDepositParams ctx).MinDeposit)
    (hd : ∀ initialDeposit, m = .MsgSubmitProposal initialDeposit →
      ∀ c ∈ initialDeposit, reDnm c.Denom = true) :
    ∀ p, checkSpamSubmitProposalMsg.validMsg reDnm gpsd ctx m ≠ .error p := by
  intro p
  cases m with
  | MsgSubmitProposal D =>
    rw [validMsg_proposal_of_valid reDnm gpsd ctx D hmin (hd D rfl)]
    intro h
    cases h
  | MsgExec _ => intro h; cases h
  | other _ => intro h; cases h

theorem check_some_iff (reDnm : String → Bool) (gpsd : GovPreventSpamDecorator)
    (ctx : Context) :
    ∀ msgs : List Msg, (∀ m ∈ msgs, ∀ p, checkOne reDnm gpsd ctx m ≠ .error p) →
      ((∃ e, checkSpamSubmitProposalMsg reDnm gpsd ctx msgs = .ok (some e))
        ↔ ∃ m ∈ msgs, ∃ e, checkOne reDnm gpsd ctx m = .ok (some e)) := by
  intro msgs
  induction msgs with
  | nil =>
    intro _
    constructor
    · rintro ⟨e, he⟩
      cases he
    · rintro ⟨m, hm, _⟩
      cases hm
  | cons m rest ih =>
    intro hnp
    have ih' := ih (fun x hx => hnp x (List.mem_cons_of_mem _ hx))
    rw [check_cons]
    cases hm : checkOne reDnm gpsd ctx m with
    | error p => exact absurd hm (hnp m (List.mem_cons_self _ _) p)
    | ok r =>
      cases r with
      | none =>
        rw [andThen_ok_none, ih']
        constructor
        · rintro ⟨x, hx, hxe⟩
          exact ⟨x, List.mem_cons_of_mem _ hx, hxe⟩
        · rintro ⟨x, hx, e, hxe⟩
          rcases List.mem_cons.mp hx with rfl | hx
          · rw [hm] at hxe
            cases hxe
          · exact ⟨x, hx, e, hxe⟩
      | some e =>
        constructor
        · intro _
          exact ⟨m, List.mem_cons_self _ _, e, hm⟩
        · intro _
          exact ⟨e, rfl⟩

theorem validAuthz_some_iff (reDnm : String → Bool) (gpsd : GovPreventSpamDecorator)
    (ctx : Context) :
    ∀ inner : List Any, (∀ v ∈ inner, ∀ p, authzOne reDnm gpsd ctx v ≠ .error p) →
      (∀ p, checkSpamSubmitProposalMsg.validAuthz reDnm gpsd ctx inner ≠ .error p)
        ∧ ((∃ e, checkSpamSubmitProposalMsg.validAuthz reDnm gpsd ctx inner = .ok (some e))
          ↔ ∃ v ∈ inner, ∃ e, authzOne reDnm gpsd ctx v = .ok (some e)) := by
  intro inner
  induction inner with
  | nil =>
    intro _
    refine ⟨fun p h => Except.noConfusion h, ?_⟩
    constructor
    · rintro ⟨e, he⟩
      cases he
    · rintro ⟨v, hv, _⟩
      cases hv
  | cons v rest ih =>
    intro hnp
    have ih' := ih (fun x hx => hnp x (List.mem_cons_of_mem _ hx))
    rw [validAuthz_cons]
    cases hv : authzOne reDnm gpsd ctx v with
    | error p => exact absurd hv (hnp v (List.mem_cons_self _ _) p)
    | ok r =>
      cases r with
      | none =>
        rw [andThen_ok_none]
        refine ⟨ih'.1, ?_⟩
        rw [ih'.2]
        constructor
        · rintro ⟨x, hx, hxe⟩
          exact ⟨x, List.mem_cons_of_mem _ hx, hxe⟩
        · rintro ⟨x, hx, e, hxe⟩
          rcases List.mem_cons.mp hx with rfl | hx
          · rw [hv] at hxe
            cases hxe
          · exact ⟨x, hx, e, hxe⟩
      | some e =>
        refine ⟨fun p h => Except.noConfusion h, ?_⟩
        constructor
        · intro _
          exact ⟨v, List.mem_cons_self _ _, e, hv⟩
        · intro _
          exact ⟨e, rfl⟩

theorem check_no_panic (reDnm : String → Bool) (gpsd : GovPreventSpamDecorator)
    (ctx : Context) :
    ∀ msgs : List Msg, (∀ m ∈ msgs, ∀ p, checkOne reDnm gpsd ctx m ≠ .error p) →
      ∀ p, checkSpamSubmitProposalMsg reDnm gpsd ctx msgs ≠ .error p := by
  intro msgs
  induction msgs with
  | nil => intro _ p h; cases h
  | cons m rest ih =>
    intro hnp p
    rw [check_cons]
    cases hm : checkOne reDnm gpsd ctx m with
    | error q => exact absurd hm (hnp m (List.mem_cons_self _ _) q)
    | ok r =>
      cases r with
      | none =>
        rw [andThen_ok_none]
        exact ih (fun x hx => hnp x (List.mem_cons_of_mem _ hx)) p
      | some e => intro h; cases h

theorem authzOne_wellformed (reDnm : String → Bool) (gpsd : GovPreventSpamDecorator)
    (ctx : Context) (v : Any)
    (hmin : Coins.IsValid reDnm (gpsd.govKeeper.GetDepositParams ctx).MinDeposit)
    (hd : ∀ initialDeposit, gpsd.cdc.UnpackAny v = .ok (.MsgSubmitProposal initialDeposit) →
      ∀ c ∈ initialDeposit, reDnm c.Denom = true) :
    (∀ p, authzOne reDnm gpsd ctx v ≠ .error p)
      ∧ ((∃ e, authzOne reDnm gpsd ctx v = .ok (some e))
        ↔ ((∃ err : Error, gpsd.cdc.UnpackAny v = .error err)
          ∨ ∃ initialDeposit : Coins,
              gpsd.cdc.UnpackAny v = .ok (.MsgSubmitProposal initialDeposit)
                ∧ depositFails reDnm gpsd ctx initialDeposit)) := by
  cases hu : gpsd.cdc.UnpackAny v with
  | error err =>
    refine ⟨?_, ?_⟩
    · intro p h
      simp only [authzOne, hu] at h
      cases h
    · constructor
      · intro _
        exact Or.inl ⟨err, rfl⟩
      · intro _
        exact ⟨cannotUnmarshalError, by simp only [authzOne, hu]⟩
  | ok m =>
    have hone : authzOne reDnm gpsd ctx v
        = checkSpamSubmitProposalMsg.validMsg reDnm gpsd ctx m := by
      simp only [authzOne, hu]
    rw [hone]
    refine ⟨?_, ?_⟩
    · apply validMsg_no_panic reDnm gpsd ctx m hmin
      intro D hD
      exact hd D (by rw [hu, hD])
    · constructor
      · rintro ⟨e, he⟩
        obtain ⟨D, M, hD, hM, hL, _⟩ := validMsg_error reDnm gpsd ctx m e he
        exact Or.inr ⟨D, by rw [hD], M, hM, hL⟩
      · rintro (⟨err, herr⟩ | ⟨D, hD, hfail⟩)
        · cases herr
        · cases hD
          exact (validMsg_fails_iff reDnm gpsd ctx D).mpr hfail

theorem checkOne_wellformed (reDnm : String → Bool) (gpsd : GovPreventSpamDecorator)
    (ctx : Context) (m : Msg)
    (hmin : Coins.IsValid reDnm (gpsd.govKeeper.GetDepositParams ctx).MinDeposit)
    (hdirect : ∀ initialDeposit, m = .MsgSubmitProposal initialDeposit →
      ∀ c ∈ initialDeposit, reDnm c.Denom = true)
    (hinner : ∀ inner v initialDeposit, m = .MsgExec inner → v ∈ inner →
      gpsd.cdc.UnpackAny v = .ok (.MsgSubmitProposal initialDeposit) →
      ∀ c ∈ initialDeposit, reDnm c.Denom = true) :
    (∀ p, checkOne reDnm gpsd ctx m ≠ .error p)
      ∧ ((∃ e, checkOne reDnm gpsd ctx m = .ok (some e)) ↔ msgFails reDnm gpsd ctx m) := by
  cases m with
  | MsgSubmitProposal D =>
    exact ⟨validMsg_no_panic reDnm gpsd ctx _ hmin hdirect, validMsg_fails_iff reDnm gpsd ctx D⟩
  | other a =>
    refine ⟨fun p h => Except.noConfusion h, ?_⟩
    constructor
    · rintro ⟨e, he⟩
      cases he
    · intro h
      cases h
  | MsgExec inner =>
    have hw : ∀ v ∈ inner, (∀ p, authzOne reDnm gpsd ctx v ≠ .error p)
        ∧ ((∃ e, authzOne reDnm gpsd ctx v = .ok (some e))
          ↔ ((∃ err : Error, gpsd.cdc.UnpackAny v = .error err)
            ∨ ∃ initialDeposit : Coins,
                gpsd.cdc.UnpackAny v = .ok (.MsgSubmitProposal initialDeposit)
                  ∧ depositFails reDnm gpsd ctx initialDeposit)) :=
      fun v hv => authzOne_wellformed reDnm gpsd ctx v hmin
        (fun D hD => hinner inner v D rfl hv hD)
    obtain ⟨hnp, hiff⟩ := validAuthz_some_iff reDnm gpsd ctx inner (fun v hv => (hw v hv).1)
    refine ⟨hnp, ?_⟩
    show (∃ e, checkSpamSubmitProposalMsg.validAuthz reDnm gpsd ctx inner = .ok (some e)) ↔ _
    rw [hiff]
    constructor
    · rintro ⟨v, hv, he⟩
      exact ⟨v, hv, ((hw v hv).2).mp he⟩
    · rintro ⟨v, hv, hf⟩
      exact ⟨v, hv, ((hw v hv).2).mpr hf⟩

/-- C16: for a well-formed minimum deposit and attached deposits with valid
denominations, in direct proposals and in proposals decoded from envelopes, the check
returns an error exactly when some message of the list is a direct proposal whose
attached deposit fails the comparison against the computed minimum, or an envelope one
of whose inner messages fails to decode or decodes to a proposal failing that
comparison; it returns no error exactly when no message is of that kind. Every error it
returns, on any input, is the insufficient-funds error carrying the computed minimum or
the unauthorized error of a decode failure. -/
theorem check_error_iff_some_message_fails (reDnm : String → Bool)
    (gpsd : GovPreventSpamDecorator) (ctx : Context) (msgs : List Msg)
    (hmin : Coins.IsValid reDnm (gpsd.govKeeper.GetDepositParams ctx).MinDeposit)
    (hdirect : ∀ initialDeposit, Msg.MsgSubmitProposal initialDeposit ∈ msgs →
      ∀ c ∈ initialDeposit, reDnm c.Denom = true)
    (hinner : ∀ inner v initialDeposit, Msg.MsgExec inner ∈ msgs → v ∈ inner →
      gpsd.cdc.UnpackAny v = .ok (.MsgSubmitProposal initialDeposit) →
      ∀ c ∈ initialDeposit, reDnm c.Denom = true) :
    ((∃ e, checkSpamSubmitProposalMsg reDnm gpsd ctx msgs = .ok (some e))
        ↔ ∃ m ∈ msgs, msgFails reDnm gpsd ctx m)
      ∧ (checkSpamSubmitProposalMsg reDnm gpsd ctx msgs = .ok none
        ↔ ∀ m ∈ msgs, ¬ msgFails reDnm gpsd ctx m)
      ∧ ∀ e, checkSpamSubmitProposalMsg reDnm gpsd ctx msgs = .ok (some e) →
          (e.Is ErrInsufficientFunds = true
              ∧ ∃ miniumInitialDeposit,
                  calcMiniumInitialDeposit reDnm (gpsd.govKeeper.GetDepositParams ctx).MinDeposit
                    = .ok miniumInitialDeposit
                  ∧ e = .wrapf ErrInsufficientFunds "not enough initial deposit. required: %v"
                      [miniumInitialDeposit])
            ∨ (e.Is ErrUnauthorized = true
              ∧ e = .wrapf ErrUnauthorized "cannot unmarshal authz exec msgs" []) := by
  have hw : ∀ m ∈ msgs, (∀ p, checkOne reDnm gpsd ctx m ≠ .error p)
      ∧ ((∃ e, checkOne reDnm gpsd ctx m = .ok (some e)) ↔ msgFails reDnm gpsd ctx m) :=
    fun m hm => checkOne_wellformed reDnm gpsd ctx m hmin
      (fun D hD => hdirect D (by rw [← hD]; exact hm))
      (fun inner v D hI hv hu => hinner inner v D (by rw [← hI]; exact hm) hv hu)
  have hiff := check_some_iff reDnm gpsd ctx msgs (fun m hm => (hw m hm).1)
  have hnp := check_no_panic reDnm gpsd ctx msgs (fun m hm => (hw m hm).1)
  have h1 : (∃ e, checkSpamSubmitProposalMsg reDnm gpsd ctx msgs = .ok (some e))
      ↔ ∃ m ∈ msgs, msgFails reDnm gpsd ctx m := by
    rw [hiff]
    constructor
    · rintro ⟨m, hm, he⟩
      exact ⟨m, hm, ((hw m hm).2).mp he⟩
    · rintro ⟨m, hm, hf⟩
      exact ⟨m, hm, ((hw m hm).2).mpr hf⟩
  refine ⟨h1, ?_, ?_⟩
  · constructor
    · intro hnone m hm hf
      obtain ⟨e, he⟩ := h1.mpr ⟨m, hm, hf⟩
      rw [hnone] at he
      cases he
    · intro hall
      cases hr : checkSpamSubmitProposalMsg reDnm gpsd ctx msgs with
      | error p => exact absurd hr (hnp p)
      | ok r =>
        cases r with
        | none => rfl
        | some e =>
          obtain ⟨m, hm, hf⟩ := h1.mp ⟨e, hr⟩
          exact absurd hf (hall m hm)
  · intro e he
    rcases check_error_kinds reDnm gpsd ctx msgs e he with hk | ⟨M, hM, hk⟩
    · exact Or.inr ⟨by rw [hk]; decide, hk⟩
    · refine Or.inl ⟨?_, M, hM, hk⟩
      rw [hk]
      simp [insufficientDepositError, Error.Is, ErrInsufficientFunds]

/-- Witness of C16: against a minimum of 1000 "stake", a coin transfer followed by an
envelope with a sufficient proposal and an undecodable message returns the unauthorized
error, and the envelope is a failing message. -/
theorem check_error_iff_some_message_fails_witness :
    Coins.IsValid DefaultCoinDenomRegex
        (sampleDecorator.govKeeper.GetDepositParams stakeContext).MinDeposit
      ∧ checkSpamSubmitProposalMsg DefaultCoinDenomRegex sampleDecorator stakeContext
          [.other packedSend, .MsgExec [packedProposal [200], packedGarbage]]
        = .ok (some cannotUnmarshalError)
      ∧ ((∃ e, checkSpamSubmitProposalMsg DefaultCoinDenomRegex sampleDecorator stakeContext
            [.other packedSend, .MsgExec [packedProposal [200], packedGarbage]] = .ok (some e))
        ↔ ∃ m ∈ [Msg.other packedSend, Msg.MsgExec [packedProposal [200], packedGarbage]],
            msgFails DefaultCoinDenomRegex sampleDecorator stakeContext m) :=
  have h1 : Coins.IsValid DefaultCoinDenomRegex
      (sampleDecorator.govKeeper.GetDepositParams stakeContext).MinDeposit := by
    unfold Coins.IsValid SortedByDenom
    decide
  have h2 : ∀ initialDeposit, Msg.MsgSubmitProposal initialDeposit
      ∈ [Msg.other packedSend, Msg.MsgExec [packedProposal [200], packedGarbage]] →
      ∀ c ∈ initialDeposit, DefaultCoinDenomRegex c.Denom = true := by
    intro D hD
    simp at hD
  have h3 : ∀ inner v initialDeposit, Msg.MsgExec inner
      ∈ [Msg.other packedSend, Msg.MsgExec [packedProposal [200], packedGarbage]] →
      v ∈ inner →
      sampleDecorator.cdc.UnpackAny v = .ok (.MsgSubmitProposal initialDeposit) →
      ∀ c ∈ initialDeposit, DefaultCoinDenomRegex c.Denom = true := by
    intro inner v D hI hv hu c hc
    simp only [List.mem_cons, List.mem_singleton, List.not_mem_nil, or_false,
      Msg.MsgExec.injEq] at hI
    rcases hI with hI | hI
    · cases hI
    subst hI
    simp only [List.mem_cons, List.mem_singleton, List.not_mem_nil, or_false] at hv
    rcases hv with rfl | rfl
    · have hD : D = [⟨"stake", 200⟩] := by
        have h : sampleDecorator.cdc.UnpackAny (packedProposal [200])
            = .ok (.MsgSubmitProposal [⟨"stake", 200⟩]) := rfl
        rw [h] at hu
        simp only [Except.ok.injEq, Msg.MsgSubmitProposal.injEq] at hu
        exact hu.symm
      subst hD
      rw [List.mem_singleton] at hc
      subst hc
      decide
    · have h : sampleDecorator.cdc.UnpackAny packedGarbage
          = .error (.registered "sdk" 2 "tx parse error") := rfl
      rw [h] at hu
      cases hu
  ⟨h1, rfl,
    (check_error_iff_some_message_fails DefaultCoinDenomRegex sampleDecorator stakeContext
      [.other packedSend, .MsgExec [packedProposal [200], packedGarbage]] h1 h2 h3).1⟩

/-! ## The comparison rule of one proposal -/

theorem belowMinimum_false_of_foreign (initialDeposit minimum : Coins) (c : Coin)
    (hc : c ∈ initialDeposit) (hforeign : ∀ m ∈ minimum, m.Denom ≠ c.Denom) :
    belowMinimum initialDeposit minimum = false := by
  have hne : initialDeposit.isEmpty = false := by
    cases initialDeposit with
    | nil => cases hc
    | cons _ _ => rfl
  have hall : initialDeposit.all (fun c => decide (amountIn minimum c.Denom ≠ 0)) = false := by
    rw [List.all_eq_false]
    exact ⟨c, hc, by simp [amountIn_of_absent minimum c.Denom hforeign]⟩
  unfold belowMinimum
  rw [hne, hall]
  simp

theorem belowMinimum_iff_rule (initialDeposit minimum : Coins)
    (hd : SortedByDenom initialDeposit) (hm : SortedByDenom minimum)
    (hpos : ∀ m ∈ minimum, 0 < m.Amount) :
    belowMinimum initialDeposit minimum = true
      ↔ minimum ≠ []
        ∧ ∀ c ∈ initialDeposit, ∃ m ∈ minimum, m.Denom = c.Denom ∧ c.Amount < m.Amount := by
  constructor
  · intro hb
    have hb' := hb
    simp only [belowMinimum, Bool.and_eq_true, Bool.not_eq_true', Bool.or_eq_true,
      List.all_eq_true, decide_eq_true_eq] at hb'
    obtain ⟨hne, hrest⟩ := hb'
    have hne2 : minimum ≠ [] := by
      intro h
      rw [h] at hne
      cases hne
    refine ⟨hne2, ?_⟩
    intro c hc
    rcases hrest with hemp | ⟨⟨_, hnz⟩, hlt⟩
    · cases initialDeposit with
      | nil => cases hc
      | cons _ _ => cases hemp
    · obtain ⟨m, hmm, hmd, hma⟩ := amountIn_mem_of_ne_zero minimum c.Denom (hnz c hc)
      refine ⟨m, hmm, hmd, ?_⟩
      rw [hma]
      exact hlt c hc
  · rintro ⟨hne, hall⟩
    have hsub : ∀ c ∈ initialDeposit, ∃ m ∈ minimum, m.Denom = c.Denom := by
      intro c hc
      obtain ⟨m, hmm, hmd, _⟩ := hall c hc
      exact ⟨m, hmm, hmd⟩
    rw [belowMinimum_iff initialDeposit minimum hd hm hpos hsub]
    refine ⟨hne, ?_⟩
    intro m hmm
    by_cases habs : amountIn initialDeposit m.Denom = 0
    · rw [habs]
      exact hpos m hmm
    · obtain ⟨c, hc, hcd, hca⟩ := amountIn_mem_of_ne_zero initialDeposit m.Denom habs
      obtain ⟨m', hm', hmd', hlt⟩ := hall c hc
      have e1 := amountIn_of_mem_sorted minimum hm m hmm
      have e2 := amountIn_of_mem_sorted minimum hm m' hm'
      rw [hmd', hcd, e1] at e2
      rw [← hca, e2]
      exact hlt

theorem validMsg_of_empty_minimum (reDnm : String → Bool) (gpsd : GovPreventSpamDecorator)
    (ctx : Context) (initialDeposit : Coins)
    (h : calcMiniumInitialDeposit reDnm (gpsd.govKeeper.GetDepositParams ctx).MinDeposit
      = .ok []) :
    checkSpamSubmitProposalMsg.validMsg reDnm gpsd ctx (.MsgSubmitProposal initialDeposit)
      = .ok none := by
  simp [checkSpamSubmitProposalMsg.validMsg, h, Coins.IsAllLT, Coins.IsAllGT]

/-- C17: for a well-formed minimum deposit and an attached deposit with valid
denominations, let `M` be the value of `calcMiniumInitialDeposit`. If the attached
deposit holds a coin of a denomination that `M` has no coin of, the proposal submission
passes the check, however small the attached amounts are in the denominations of `M`,
and in admission context `AnteHandle` hands the transaction to the next handler. -/
theorem foreign_denomination_passes (reDnm : String → Bool) (gpsd : GovPreventSpamDecorator)
    (ctx : Context) (initialDeposit : Coins)
    (hmin : Coins.IsValid reDnm (gpsd.govKeeper.GetDepositParams ctx).MinDeposit)
    (hd : ∀ c ∈ initialDeposit, reDnm c.Denom = true) :
    ∃ miniumInitialDeposit : Coins,
      calcMiniumInitialDeposit reDnm (gpsd.govKeeper.GetDepositParams ctx).MinDeposit
          = .ok miniumInitialDeposit
        ∧ ((∃ c ∈ initialDeposit, ∀ m ∈ miniumInitialDeposit, m.Denom ≠ c.Denom) →
            checkSpamSubmitProposalMsg reDnm gpsd ctx [.MsgSubmitProposal initialDeposit]
                = .ok none
              ∧ ∀ (tx : Tx) (next : AnteHandler), ctx.IsCheckTx = true →
                  tx.GetMsgs = [.MsgSubmitProposal initialDeposit] →
                  gpsd.AnteHandle reDnm ctx tx false next = next ctx tx false) := by
  refine ⟨computedMinimum (gpsd.govKeeper.GetDepositParams ctx).MinDeposit,
    calc_of_valid reDnm _ hmin, ?_⟩
  rintro ⟨c, hc, hforeign⟩
  have hcheck : checkSpamSubmitProposalMsg reDnm gpsd ctx [.MsgSubmitProposal initialDeposit]
      = .ok none := by
    rw [check_single_proposal, validMsg_proposal_of_valid reDnm gpsd ctx initialDeposit hmin hd,
      belowMinimum_false_of_foreign initialDeposit _ c hc hforeign]
    rfl
  refine ⟨hcheck, ?_⟩
  intro tx next hctx htx
  exact anteHandle_passes reDnm gpsd ctx tx next hctx (by rw [htx]; exact hcheck)

/-- Witness of C17: against a minimum of 1000 "stake", whose computed minimum is
200 "stake", an attached deposit of 1 "other" and 1 "stake" passes, while 1 "stake"
alone is rejected. -/
theorem foreign_denomination_passes_witness :
    Coins.IsValid DefaultCoinDenomRegex
        (sampleDecorator.govKeeper.GetDepositParams stakeContext).MinDeposit
      ∧ (∀ c ∈ [Coin.mk "other" 1, Coin.mk "stake" 1], DefaultCoinDenomRegex c.Denom = true)
      ∧ calcMiniumInitialDeposit DefaultCoinDenomRegex
          (sampleDecorator.govKeeper.GetDepositParams stakeContext).MinDeposit
        = .ok [⟨"stake", 200⟩]
      ∧ (∃ c ∈ [Coin.mk "other" 1, Coin.mk "stake" 1],
          ∀ m ∈ [Coin.mk "stake" 200], m.Denom ≠ c.Denom)
      ∧ checkSpamSubmitProposalMsg DefaultCoinDenomRegex sampleDecorator stakeContext
          [.MsgSubmitProposal [⟨"other", 1⟩, ⟨"stake", 1⟩]] = .ok none
      ∧ checkSpamSubmitProposalMsg DefaultCoinDenomRegex sampleDecorator stakeContext
          [.MsgSubmitProposal [⟨"stake", 1⟩]]
        = .ok (some (insufficientDepositError [⟨"stake", 200⟩])) :=
  have h1 : Coins.IsValid DefaultCoinDenomRegex
      (sampleDecorator.govKeeper.GetDepositParams stakeContext).MinDeposit := by
    unfold Coins.IsValid SortedByDenom
    decide
  have h2 : ∀ c ∈ [Coin.mk "other" 1, Coin.mk "stake" 1],
      DefaultCoinDenomRegex c.Denom = true := by
    decide
  have h3 : ∃ c ∈ [Coin.mk "other" 1, Coin.mk "stake" 1],
      ∀ m ∈ [Coin.mk "stake" 200], m.Denom ≠ c.Denom :=
    ⟨⟨"other", 1⟩, by decide, by decide⟩
  have h4 : checkSpamSubmitProposalMsg DefaultCoinDenomRegex sampleDecorator stakeContext
      [.MsgSubmitProposal [⟨"other", 1⟩, ⟨"stake", 1⟩]] = .ok none := by
    obtain ⟨M, hM, hpass⟩ := foreign_denomination_passes DefaultCoinDenomRegex sampleDecorator
      stakeContext [⟨"other", 1⟩, ⟨"stake", 1⟩] h1 h2
    have hval : M = [⟨"stake", 200⟩] := by
      rw [show calcMiniumInitialDeposit DefaultCoinDenomRegex
          (sampleDecorator.govKeeper.GetDepositParams stakeContext).MinDeposit
        = .ok [⟨"stake", 200⟩] from rfl] at hM
      exact (Except.ok.inj hM).symm
    subst hval
    exact (hpass h3).1
  ⟨h1, h2, rfl, h3, h4, rfl⟩

/-- C18: for a well-formed minimum deposit and an attached deposit `D` with valid,
strictly increasing denominations, let `M` be the value of `calcMiniumInitialDeposit`,
the rounded 20% of every coin with the zero coins dropped. The proposal submission is
rejected exactly when `M` is non-empty and every coin of `D` has the denomination of a
coin of `M` with a strictly greater amount, and it passes exactly when that fails. In
particular an empty `D` is rejected exactly when `M` is non-empty, and when every amount
of the minimum deposit is at most 2, `M` is empty and every attached deposit passes. -/
theorem exact_rejection_rule (reDnm : String → Bool) (gpsd : GovPreventSpamDecorator)
    (ctx : Context) (initialDeposit : Coins)
    (hmin : Coins.IsValid reDnm (gpsd.govKeeper.GetDepositParams ctx).MinDeposit)
    (hd : ∀ c ∈ initialDeposit, reDnm c.Denom = true)
    (hs : SortedByDenom initialDeposit) :
    ∃ miniumInitialDeposit : Coins,
      calcMiniumInitialDeposit reDnm (gpsd.govKeeper.GetDepositParams ctx).MinDeposit
          = .ok miniumInitialDeposit
        ∧ miniumInitialDeposit
          = removeZeroCoins ((gpsd.govKeeper.GetDepositParams ctx).MinDeposit.map
              (fun c => ⟨c.Denom, (c.Amount + 2) / 5⟩))
        ∧ (checkSpamSubmitProposalMsg reDnm gpsd ctx [.MsgSubmitProposal initialDeposit]
            = .ok (some (.wrapf ErrInsufficientFunds "not enough initial deposit. required: %v"
                [miniumInitialDeposit]))
          ↔ miniumInitialDeposit ≠ []
            ∧ ∀ c ∈ initialDeposit,
                ∃ m ∈ miniumInitialDeposit, m.Denom = c.Denom ∧ c.Amount < m.Amount)
        ∧ (checkSpamSubmitProposalMsg reDnm gpsd ctx [.MsgSubmitProposal initialDeposit]
            = .ok none
          ↔ ¬ (miniumInitialDeposit ≠ []
            ∧ ∀ c ∈ initialDeposit,
                ∃ m ∈ miniumInitialDeposit, m.Denom = c.Denom ∧ c.Amount < m.Amount))
        ∧ (checkSpamSubmitProposalMsg reDnm gpsd ctx [.MsgSubmitProposal []]
            = .ok (some (.wrapf ErrInsufficientFunds "not enough initial deposit. required: %v"
                [miniumInitialDeposit]))
          ↔ miniumInitialDeposit ≠ [])
        ∧ ((∀ c ∈ (gpsd.govKeeper.GetDepositParams ctx).MinDeposit, c.Amount ≤ 2) →
            miniumInitialDeposit = []
              ∧ ∀ attached : Coins,
                  checkSpamSubmitProposalMsg reDnm gpsd ctx [.MsgSubmitProposal attached]
                    = .ok none) := by
  have hcalc := calc_of_valid reDnm _ hmin
  have hsorted := computedMinimum_sorted _ hmin.2
  have hpos := computedMinimum_pos reDnm _ hmin
  have hrule := belowMinimum_iff_rule initialDeposit
    (computedMinimum (gpsd.govKeeper.GetDepositParams ctx).MinDeposit) hs hsorted hpos
  have hform : computedMinimum (gpsd.govKeeper.GetDepositParams ctx).MinDeposit
      = removeZeroCoins ((gpsd.govKeeper.GetDepositParams ctx).MinDeposit.map
          (fun c => ⟨c.Denom, (c.Amount + 2) / 5⟩)) := by
    unfold computedMinimum
    congr 1
    apply List.map_congr_left
    intro c hc
    simp only [miniumInitialCoinOf,
      chopPrecisionAndRound_rate c.Amount (le_of_lt (hmin.1 c hc).2.1)]
  refine ⟨_, hcalc, hform, ?_, ?_, ?_, ?_⟩
  · rw [check_single_proposal, validMsg_proposal_of_valid reDnm gpsd ctx initialDeposit hmin hd,
      ← hrule]
    cases belowMinimum initialDeposit
      (computedMinimum (gpsd.govKeeper.GetDepositParams ctx).MinDeposit)
    · simp
    · simp [insufficientDepositError]
  · rw [check_single_proposal, validMsg_proposal_of_valid reDnm gpsd ctx initialDeposit hmin hd,
      ← hrule]
    cases belowMinimum initialDeposit
      (computedMinimum (gpsd.govKeeper.GetDepositParams ctx).MinDeposit)
    · simp
    · simp
  · rw [check_single_proposal, validMsg_proposal_of_valid reDnm gpsd ctx [] hmin
      (fun c hc => by cases hc)]
    cases hM : computedMinimum (gpsd.govKeeper.GetDepositParams ctx).MinDeposit with
    | nil => simp [belowMinimum]
    | cons x xs => simp [belowMinimum, insufficientDepositError]
  · intro hsmall
    have hempty : computedMinimum (gpsd.govKeeper.GetDepositParams ctx).MinDeposit = [] := by
      rw [List.eq_nil_iff_forall_not_mem]
      intro m hm
      obtain ⟨c, hc, _, hz⟩ := (mem_computedMinimum _ m).mp hm
      have h2 := hsmall c hc
      have hp := (hmin.1 c hc).2.1
      rw [chopPrecisionAndRound_rate c.Amount (le_of_lt hp)] at hz
      omega
    refine ⟨hempty, ?_⟩
    intro attached
    rw [check_single_proposal]
    exact validMsg_of_empty_minimum reDnm gpsd ctx attached (by rw [hcalc, hempty])

/-- Witness of C18: against a minimum of 50 "atom" and 1000 "stake", whose computed
minimum is 10 "atom" and 200 "stake", the deposit of 9 "atom" and 199 "stake" is
rejected and the deposit of 10 "atom" and 199 "stake" passes. -/
theorem exact_rejection_rule_witness :
    Coins.IsValid DefaultCoinDenomRegex
        (sampleDecorator.govKeeper.GetDepositParams twoDenomContext).MinDeposit
      ∧ (∀ c ∈ [Coin.mk "atom" 9, Coin.mk "stake" 199], DefaultCoinDenomRegex c.Denom = true)
      ∧ SortedByDenom [⟨"atom", 9⟩, ⟨"stake", 199⟩]
      ∧ checkSpamSubmitProposalMsg DefaultCoinDenomRegex sampleDecorator twoDenomContext
          [.MsgSubmitProposal [⟨"atom", 9⟩, ⟨"stake", 199⟩]]
        = .ok (some (insufficientDepositError [⟨"atom", 10⟩, ⟨"stake", 200⟩]))
      ∧ checkSpamSubmitProposalMsg DefaultCoinDenomRegex sampleDecorator twoDenomContext
          [.MsgSubmitProposal [⟨"atom", 10⟩, ⟨"stake", 199⟩]] = .ok none
      ∧ ∃ miniumInitialDeposit : Coins,
          calcMiniumInitialDeposit DefaultCoinDenomRegex
              (sampleDecorator.govKeeper.GetDepositParams twoDenomContext).MinDeposit
            = .ok miniumInitialDeposit
          ∧ (checkSpamSubmitProposalMsg DefaultCoinDenomRegex sampleDecorator twoDenomContext
              [.MsgSubmitProposal [⟨"atom", 9⟩, ⟨"stake", 199⟩]]
              = .ok (some (.wrapf ErrInsufficientFunds
                  "not enough initial deposit. required: %v" [miniumInitialDeposit]))
            ↔ miniumInitialDeposit ≠ []
              ∧ ∀ c ∈ [Coin.mk "atom" 9, Coin.mk "stake" 199],
                  ∃ m ∈ miniumInitialDeposit, m.Denom = c.Denom ∧ c.Amount < m.Amount) :=
  have h1 : Coins.IsValid DefaultCoinDenomRegex
      (sampleDecorator.govKeeper.GetDepositParams twoDenomContext).MinDeposit := by
    unfold Coins.IsValid SortedByDenom
    decide
  have h2 : ∀ c ∈ [Coin.mk "atom" 9, Coin.mk "stake" 199],
      DefaultCoinDenomRegex c.Denom = true := by
    decide
  have h3 : SortedByDenom [⟨"atom", 9⟩, ⟨"stake", 199⟩] := by
    unfold SortedByDenom
    decide
  ⟨h1, h2, h3, rfl, rfl,
    by
      obtain ⟨M, hM, _, hrule, _⟩ := exact_rejection_rule DefaultCoinDenomRegex sampleDecorator
        twoDenomContext [⟨"atom", 9⟩, ⟨"stake", 199⟩] h1 h2 h3
      exact ⟨M, hM, hrule⟩⟩

end Bcna
